import Mathlib

/-!
Cloak client (`cmd/ck-client/ck-client.go`): embedding and verified properties.

The client's four functions (`pipe`, `makeRemoteConn`, `makeSession`, `main`) are
embedded as executable Lean functions.  Every interaction with the outside world
(network reads and writes, dialing, the clock, the random source, the scheduler
that interleaves goroutines) is an explicit input, and every function returns the
list of observable events it performed together with its result.

* `pipe` and the connection handler of `main` run against a source given as the
  list of its deliveries and a destination given by the outcome of each `Write`.
* `makeRemoteConn` runs against the outcomes of its six network steps.
* `makeSession` is a machine of goroutines (the caller and one worker per
  connection) moved one step at a time in the order a schedule prescribes; what
  is proved of it holds for every schedule.
* `main` is the configuration checks followed by the accept loop.

Functions of the Go standard library the client relies on (`io.ReadAtLeast`,
`net.ParseIP`, `IP.To4`) are transcribed from the library; functions of the
repository's other packages appear as parameters or as small models whose doc
comment says so.
-/

namespace Cloak

/-! ## Basic data -/

/-- A byte; its value is never inspected by the client code. -/
abbrev Byte := Nat

/-- A Go `error` value, identified by its message. -/
abbrev Err := String

/-- The outcome of a fallible Go call: a value with a nil error, or a non-nil
error. -/
inductive Outcome (α : Type) where
  | ok (a : α)
  | error (e : Err)
deriving DecidableEq, Repr

/-- An `io.ReadWriteCloser` handled by the client: a TCP connection
(`net.Conn`) or a multiplexed stream (`*mux.Stream`). -/
inductive Endpoint where
  | conn (id : Nat)
  | stream (id : Nat)
deriving DecidableEq, Repr

/-- Modelled from the spec: the type `client.State` of the package
`internal/client`, whose declaration is not part of the source at hand; the fields
are those the client program reads or sets (spec §6, configuration boundary: local
and remote host and port, number of pooled connections, identity key material,
ticket timing hint; §3: the session identifier is the one field set after start). -/
structure State where
  SS_LOCAL_HOST : String
  SS_LOCAL_PORT : String
  SS_REMOTE_HOST : String
  SS_REMOTE_PORT : String
  sessionID : Nat
  UID : List Byte
  TicketTimeHint : Int
  NumConn : Int
deriving DecidableEq, Repr

/-- Modelled from the spec: the method `(*State).SetSessionID` of the package
`internal/client` (not part of the source at hand), which stores the session
identifier in the state (§9: the session identifier is the field the session
protocol sets). -/
def State.SetSessionID (sta : State) (id : Nat) : State :=
  { sta with sessionID := id }

/-- What a source is ready to hand to the next `Read` call: some bytes (possibly
none, possibly more than the caller's buffer holds) and possibly an error that
accompanies them. -/
structure ReadItem where
  data : List Byte
  err : Option Err
deriving DecidableEq, Repr

/-- Result of `io.ReadAtLeast(r, buf, 1)`: the bytes placed in `buf[:n]` with a
nil error, a non-nil error (then `n = 0`), or a call that never returns because
the source has nothing more to deliver. -/
inductive ReadResult where
  | ok (buf : List Byte)
  | failed (e : Err)
  | blocked
deriving DecidableEq, Repr

/-- Observable events of the client. -/
inductive Event where
  /-- The call `io.ReadAtLeast(ep, buf, 1)` with `len(buf) = cap` returned. -/
  | readAtLeast (ep : Endpoint) (cap : Nat) (res : Outcome (List Byte))
  /-- The call `ep.Write(buf)` returned `err`. -/
  | write (ep : Endpoint) (buf : List Byte) (err : Option Err)
  /-- The statement `go ep.Close()`. -/
  | goClose (ep : Endpoint)
  /-- The call `ep.Close()`. -/
  | close (ep : Endpoint)
  /-- The call `sesh.OpenStream()` returned. -/
  | openStream (res : Outcome Endpoint)
  /-- The statement `go pipe(dst, src)`. -/
  | goPipe (dst src : Endpoint)
  /-- The call `pipe(dst, src)` in the current goroutine. -/
  | callPipe (dst src : Endpoint)
  /-- A line written by `log.Println` / `log.Printf`. -/
  | log (msg : String)
  /-- The call `TLS.ComposeInitHandshake(sta)`, with the state it was given. -/
  | composeInitHandshake (sta : State)
  /-- The call `TLS.ComposeReply()`. -/
  | composeReply
  /-- The call `d.Dial(network, addr)` returned. -/
  | dial (network addr : String) (res : Outcome Endpoint)
  /-- The call `util.ReadTLS(c, buf)` with `len(buf) = cap` returned `err`. -/
  | readTLS (c : Endpoint) (cap : Nat) (err : Option Err)
  /-- The call `sta.SetSessionID(id)`. -/
  | setSessionID (id : Nat)
  /-- The call `mux.MakeSession(id, valve, obfs, deobfs, util.ReadTLS)`, with the
  keys the obfuscator and the deobfuscator were made from. -/
  | muxMakeSession (id : Nat) (obfsKey deobfsKey : List Byte)
  /-- The call `time.Sleep(d)`, `d` in nanoseconds. -/
  | sleep (ns : Nat)
  /-- The call `sesh.AddConnection(c)` on the session with identifier `id`. -/
  | addConnection (id : Nat) (c : Endpoint)
  /-- The call `wg.Add(1)`. -/
  | wgAdd
  /-- The call `wg.Done()`. -/
  | wgDone
  /-- The call `wg.Wait()` returned. -/
  | wgWait
deriving DecidableEq, Repr

/-! ## `io.Reader`, `io.ReadAtLeast` (Go standard library) -/

/-- One call `r.Read(p)` with `len(p) = cap` on a source whose pending deliveries
are `items`: at most `cap` bytes are returned; what does not fit stays pending.
`none`: the source has nothing more to deliver and the call never returns. -/
def Read (cap : Nat) : List ReadItem → Option ((List Byte × Option Err) × List ReadItem)
  | [] => none
  | it :: rest =>
    if it.data.length ≤ cap then some ((it.data, it.err), rest)
    else some ((it.data.take cap, none), { data := it.data.drop cap, err := it.err } :: rest)

/-- The loop `for n < min && err == nil { nn, err = r.Read(buf[n:]); n += nn }` of
`io.ReadAtLeast` at `min = 1` with `len(buf) = cap`, and the statement
`if n >= min { err = nil }` that follows it; the loop is entered with `cap ≥ 1`
only.  While the loop runs `n = 0`, so every `Read` gets the whole buffer; the
first `Read` that returns a byte ends the loop, with a nil error whatever error
came with the bytes; a `Read` that returns no byte and an error ends it with that
error. -/
def readLoop (cap : Nat) : List ReadItem → ReadResult × List ReadItem
  | [] => (.blocked, [])
  | it :: rest =>
    match Read cap (it :: rest) with
    | none => (.blocked, [])
    | some ((got, err), pending) =>
      if 1 ≤ got.length then (.ok got, pending)
      else
        match err with
        | some e => (.failed e, pending)
        | none => readLoop cap rest

/-- The Go library function `io.ReadAtLeast(r, buf, min)` at `min = 1`, the only
way the client calls it, with `len(buf) = cap`:
`if len(buf) < min { return 0, ErrShortBuffer }`, then the loop. -/
def ReadAtLeast (cap : Nat) (items : List ReadItem) : ReadResult × List ReadItem :=
  if cap < 1 then (.failed "short buffer", items) else readLoop cap items

/-! ## `pipe` -/

/-- How far a run of `pipe` got. -/
inductive PipeStatus where
  /-- The `return` statement was executed. -/
  | returned
  /-- Suspended for ever in a read the source never answers. -/
  | blocked
  /-- Still inside the `for` loop after the iterations looked at. -/
  | running
deriving DecidableEq, Repr

/-- The function `pipe(dst, src)`, followed for at most `fuel` iterations of its
`for` loop.  `wr k` is the error returned by the `k`-th `dst.Write` (`none`: the
whole buffer was written), `items` what `src` delivers.  The buffer has 16396
bytes. -/
def pipe (dst src : Endpoint) (wr : Nat → Option Err) :
    Nat → Nat → List ReadItem → List Event × PipeStatus
  | 0, _, _ => ([], .running)
  | fuel + 1, k, items =>
    match ReadAtLeast 16396 items with
    | (.blocked, _) => ([], .blocked)
    | (.failed e, _) =>
      ([.readAtLeast src 16396 (.error e), .goClose dst, .goClose src], .returned)
    | (.ok buf, pending) =>
      match wr k with
      | some e =>
        ([.readAtLeast src 16396 (.ok buf), .write dst buf (some e),
          .goClose dst, .goClose src], .returned)
      | none =>
        let r := pipe dst src wr fuel (k + 1) pending
        (.readAtLeast src 16396 (.ok buf) :: .write dst buf none :: r.1, r.2)

/-! ## Reading traces -/

/-- The buffers passed to `Write`, in order. -/
def writeBufs : List Event → List (List Byte)
  | [] => []
  | .write _ buf _ :: tr => buf :: writeBufs tr
  | _ :: tr => writeBufs tr

/-- The chunks obtained by successful `io.ReadAtLeast` calls, in order. -/
def readChunks : List Event → List (List Byte)
  | [] => []
  | .readAtLeast _ _ (.ok buf) :: tr => buf :: readChunks tr
  | _ :: tr => readChunks tr

/-- A read, a write or a dial that returned a non-nil error. -/
def Event.isFailure : Event → Bool
  | .readAtLeast _ _ (.error _) => true
  | .write _ _ (some _) => true
  | .readTLS _ _ (some _) => true
  | .dial _ _ (.error _) => true
  | _ => false

/-- A read or a write, failed or not. -/
def Event.isReadWrite : Event → Bool
  | .readAtLeast _ _ _ => true
  | .write _ _ _ => true
  | _ => false

/-- The endpoints on which `Close` was issued, in order. -/
def closes : List Event → List Endpoint
  | [] => []
  | .goClose ep :: tr => ep :: closes tr
  | .close ep :: tr => ep :: closes tr
  | _ :: tr => closes tr

/-- All bytes a source delivers, in order. -/
def offered (items : List ReadItem) : List Byte :=
  (items.map ReadItem.data).flatten

/-- The bytes a source delivers before the first read that fails, that is the
first delivery of an error without any byte. -/
def deliveredBeforeFailure : List ReadItem → List Byte
  | [] => []
  | it :: rest =>
    if it.data = [] ∧ it.err ≠ none then [] else it.data ++ deliveredBeforeFailure rest

/-- A number of loop iterations after which `pipe` cannot still be running: every
iteration that goes round removes a delivery or at least one byte. -/
def pipeWork (items : List ReadItem) : Nat :=
  items.length + (offered items).length

/-! ## What the source and the destination do, seen from outside `pipe` -/

/-- The deliveries still pending on a source after `i` calls of
`io.ReadAtLeast(src, buf, 1)` with a buffer of 16396 bytes. -/
def srcAfter : Nat → List ReadItem → List ReadItem
  | 0, items => items
  | i + 1, items => srcAfter i (ReadAtLeast 16396 items).2

/-- The result of call number `i` (from 0) of `io.ReadAtLeast(src, buf, 1)` with a
buffer of 16396 bytes on a source that delivers `items`. -/
def srcRead (i : Nat) (items : List ReadItem) : ReadResult :=
  (ReadAtLeast 16396 (srcAfter i items)).1

/-- The chunks the first `n` calls of `io.ReadAtLeast` obtain from the source, as
far as they succeed. -/
def chunks : Nat → List ReadItem → List (List Byte)
  | 0, _ => []
  | n + 1, items =>
    match ReadAtLeast 16396 items with
    | (.ok buf, pending) => buf :: chunks n pending
    | _ => []

/-- For each chunk a successful read of it from `src` followed by a successful
write of it to `dst`. -/
def relayPairs (dst src : Endpoint) : List (List Byte) → List Event
  | [] => []
  | b :: bs => .readAtLeast src 16396 (.ok b) :: .write dst b none :: relayPairs dst src bs

/-! ## The connection handler of `main` -/

/-- The goroutine `main` starts for an accepted connection `ssConn`, followed for
at most `fuel` iterations of the loop of its final `pipe(stream, ssConn)`.
`items` is what `ssConn` delivers, `opened` the result of `sesh.OpenStream()`,
`wr k` the error of the `k`-th `Write` on the stream (`k = 0` is the handler's own
write of the first chunk).  The first buffer has 10240 bytes. -/
def handler (ssConn : Endpoint) (items : List ReadItem) (opened : Outcome Endpoint)
    (wr : Nat → Option Err) (fuel : Nat) : List Event × PipeStatus :=
  match ReadAtLeast 10240 items with
  | (.blocked, _) => ([], .blocked)
  | (.failed e, _) =>
    ([.readAtLeast ssConn 10240 (.error e), .log e, .close ssConn], .returned)
  | (.ok data, pending) =>
    match opened with
    | .error e =>
      ([.readAtLeast ssConn 10240 (.ok data), .openStream (.error e), .log e,
        .close ssConn], .returned)
    | .ok stream =>
      match wr 0 with
      | some e =>
        ([.readAtLeast ssConn 10240 (.ok data), .openStream (.ok stream),
          .write stream data (some e), .log e, .close ssConn, .close stream], .returned)
      | none =>
        let r := pipe stream ssConn wr fuel 1 pending
        (.readAtLeast ssConn 10240 (.ok data) :: .openStream (.ok stream) ::
          .write stream data none :: .goPipe ssConn stream :: .callPipe stream ssConn :: r.1,
          r.2)


/-! ## `net.ParseIP` and `IP.To4` (Go standard library, package `net`)

Go strings are byte strings; the functions below only compare bytes with ASCII
characters and count ASCII characters they have recognised, so they are written
over the list of characters of the string.  An `IP` is a byte slice; the nil slice
is the empty list. -/

/-- The Go constant `big = 0xFFFFFF` of `net/parse.go`. -/
def big : Nat := 0xFFFFFF

/-- The loop of `dtoi`: `for i = 0; i < len(s) && '0' <= s[i] && s[i] <= '9'; i++`
with body `n = n*10 + int(s[i]-'0'); if n >= big { return big, i, false }`.
The result is `(n, i, overflowed)`. -/
def dtoiLoop : List Char → Nat → Nat → Nat × Nat × Bool
  | [], n, i => (n, i, false)
  | ch :: s, n, i =>
    if '0'.toNat ≤ ch.toNat ∧ ch.toNat ≤ '9'.toNat then
      let m := n * 10 + (ch.toNat - '0'.toNat)
      if big ≤ m then (big, i, true) else dtoiLoop s m (i + 1)
    else (n, i, false)

/-- Go `dtoi(s)`: decimal to integer; returns number, characters consumed,
success. -/
def dtoi (s : List Char) : Nat × Nat × Bool :=
  match dtoiLoop s 0 0 with
  | (n, i, true) => (n, i, false)
  | (n, i, false) => if i = 0 then (0, 0, false) else (n, i, true)

/-- The value of a hexadecimal digit, if the character is one. -/
def hexDigit (ch : Char) : Option Nat :=
  if '0'.toNat ≤ ch.toNat ∧ ch.toNat ≤ '9'.toNat then some (ch.toNat - '0'.toNat)
  else if 'a'.toNat ≤ ch.toNat ∧ ch.toNat ≤ 'f'.toNat then some (ch.toNat - 'a'.toNat + 10)
  else if 'A'.toNat ≤ ch.toNat ∧ ch.toNat ≤ 'F'.toNat then some (ch.toNat - 'A'.toNat + 10)
  else none

/-- The loop of `xtoi`: each hexadecimal digit does `n *= 16; n += digit`, then
`if n >= big { return 0, i, false }`; any other character ends the loop.  The
result is `(n, i, overflowed)`. -/
def xtoiLoop : List Char → Nat → Nat → Nat × Nat × Bool
  | [], n, i => (n, i, false)
  | ch :: s, n, i =>
    match hexDigit ch with
    | some d =>
      let m := n * 16 + d
      if big ≤ m then (0, i, true) else xtoiLoop s m (i + 1)
    | none => (n, i, false)

/-- Go `xtoi(s)`: hexadecimal to integer; returns number, characters consumed,
success. -/
def xtoi (s : List Char) : Nat × Nat × Bool :=
  match xtoiLoop s 0 0 with
  | (n, i, true) => (n, i, false)
  | (n, i, false) => if i = 0 then (0, i, false) else (n, i, true)

/-- Go `IPv4(a, b, c, d)`: the 16-byte form of an IPv4 address, the bytes after
the prefix `v4InV6Prefix = 00 00 00 00 00 00 00 00 00 00 ff ff`. -/
def IPv4 (a b c d : Nat) : List Nat :=
  [0, 0, 0, 0, 0, 0, 0, 0, 0, 0, 0xff, 0xff, a, b, c, d]

/-- The loop `for i := 0; i < IPv4len; i++` of `parseIPv4`, with `left` iterations
to go: `none` is `return nil`, otherwise the octets read (appended to `p`) and the
rest of the string. -/
def parseIPv4Loop : Nat → Nat → List Char → List Nat → Option (List Nat × List Char)
  | 0, _, s, p => some (p, s)
  | left + 1, i, s, p =>
    if s.length = 0 then none
    else
      let dot := 0 < i
      if dot ∧ s.head? ≠ some '.' then none
      else
        let s1 := if dot then s.drop 1 else s
        match dtoi s1 with
        | (n, c, ok) =>
          if !ok || 0xFF < n then none
          else parseIPv4Loop left (i + 1) (s1.drop c) (p ++ [n % 256])

/-- Go `parseIPv4(s)`: parse an IPv4 address `d.d.d.d`; nil when malformed. -/
def parseIPv4 (s : List Char) : List Nat :=
  match parseIPv4Loop 4 0 s [] with
  | none => []
  | some (p, rest) =>
    if rest.length ≠ 0 then []
    else IPv4 (p.getD 0 0) (p.getD 1 0) (p.getD 2 0) (p.getD 3 0)

/-- The first shifting loop of `parseIPv6`, `for j := i - 1; j >= ellipsis; j--`
with body `ip[j+n] = ip[j]`; `k` counts the iterations left, the current `j` being
`ellipsis + k - 1`. -/
def shiftLoop (n ellipsis : Nat) : Nat → List Nat → List Nat
  | 0, ip => ip
  | k + 1, ip => shiftLoop n ellipsis k (ip.set (ellipsis + k + n) (ip.getD (ellipsis + k) 0))

/-- The second shifting loop of `parseIPv6`,
`for j := ellipsis + n - 1; j >= ellipsis; j--` with body `ip[j] = 0`; `k` counts
the iterations left, the current `j` being `ellipsis + k - 1`. -/
def zeroLoop (ellipsis : Nat) : Nat → List Nat → List Nat
  | 0, ip => ip
  | k + 1, ip => zeroLoop ellipsis k (ip.set (ellipsis + k) 0)

/-- The main loop `for i < IPv6len` of `parseIPv6`: hexadecimal groups separated
by colons, at most one `::`, possibly a trailing dotted IPv4 address.  `none` is
`return nil`; otherwise the values of `ip`, `ellipsis`, `i` and `s` when the loop
is left.  Every iteration that goes round adds 2 to `i`, so 8 iterations are
always enough (`parseIPv6Loop_fuel`). -/
def parseIPv6Loop : Nat → List Nat → Int → Nat → List Char →
    Option (List Nat × Int × Nat × List Char)
  | 0, ip, ellipsis, i, s => some (ip, ellipsis, i, s)
  | fuel + 1, ip, ellipsis, i, s =>
    if ¬ i < 16 then some (ip, ellipsis, i, s)
    else
      match xtoi s with
      | (n, c, ok) =>
        if !ok || 0xFFFF < n then none
        else if c < s.length ∧ s.get? c = some '.' then
          -- followed by a dot: might be the trailing IPv4 address
          if ellipsis < 0 ∧ i ≠ 16 - 4 then none
          else if 16 < i + 4 then none
          else
            let ip4 := parseIPv4 s
            if ip4 = [] then none
            else
              some ((((ip.set i (ip4.getD 12 0)).set (i + 1) (ip4.getD 13 0)).set (i + 2)
                (ip4.getD 14 0)).set (i + 3) (ip4.getD 15 0), ellipsis, i + 4, [])
        else
          -- save this 16-bit chunk
          let ip1 := (ip.set i (n / 256 % 256)).set (i + 1) (n % 256)
          let i1 := i + 2
          let s1 := s.drop c
          if s1.length = 0 then some (ip1, ellipsis, i1, s1)
          else if s1.head? ≠ some ':' ∨ s1.length = 1 then none
          else
            let s2 := s1.drop 1
            if s2.head? = some ':' then
              if 0 ≤ ellipsis then none
              else
                let s3 := s2.drop 1
                if s3.length = 0 then some (ip1, (i1 : Int), i1, s3)
                else parseIPv6Loop fuel ip1 (i1 : Int) i1 s3
            else parseIPv6Loop fuel ip1 ellipsis i1 s2

/-- What `parseIPv6` does once its main loop is left: the whole string must have
been used; a short address is completed by expanding the ellipsis. -/
def parseIPv6Finish : Option (List Nat × Int × Nat × List Char) → List Nat
  | none => []
  | some (ip, ellipsis, i, s) =>
    if s.length ≠ 0 then []
    else if i < 16 then
      if ellipsis < 0 then []
      else
        let n := 16 - i
        zeroLoop ellipsis.toNat n (shiftLoop n ellipsis.toNat (i - ellipsis.toNat) ip)
    else if 0 ≤ ellipsis then []
    else ip

/-- Go `parseIPv6(s)`: parse a literal IPv6 address (RFC 4291, RFC 5952); nil when
malformed. -/
def parseIPv6 (s : List Char) : List Nat :=
  let ip := List.replicate 16 0
  if 2 ≤ s.length ∧ s.head? = some ':' ∧ s.get? 1 = some ':' then
    -- leading ellipsis
    let s1 := s.drop 2
    if s1.length = 0 then ip
    else parseIPv6Finish (parseIPv6Loop 8 ip 0 0 s1)
  else parseIPv6Finish (parseIPv6Loop 8 ip (-1) 0 s)

/-- The scan of `ParseIP`: `for i := 0; i < len(s); i++` looking at `s[i]`; a `.`
first sends the whole string to `parseIPv4`, a `:` first to `parseIPv6`. -/
def ParseIPScan (whole : List Char) : List Char → List Nat
  | [] => []
  | ch :: rest =>
    if ch = '.' then parseIPv4 whole
    else if ch = ':' then parseIPv6 whole
    else ParseIPScan whole rest

/-- Go `net.ParseIP(s)`: the 16-byte address a dotted-decimal IPv4, an IPv6 or an
IPv4-mapped IPv6 literal stands for; nil when `s` is none of these. -/
def ParseIP (s : String) : List Nat :=
  ParseIPScan s.data s.data

/-- Go `isZeros(p)`. -/
def isZeros (p : List Nat) : Bool :=
  p.all (fun b => b == 0)

/-- Go `(ip IP).To4()`: the 4-byte form of an IPv4 address, nil when `ip` is not
one: `if len(ip) == IPv4len { return ip }`, then
`if len(ip) == IPv6len && isZeros(ip[0:10]) && ip[10] == 0xff && ip[11] == 0xff
{ return ip[12:16] }`, then `return nil`. -/
def To4 (ip : List Nat) : List Nat :=
  if ip.length = 4 then ip
  else if ip.length = 16 ∧ isZeros (ip.take 10) = true ∧ ip.getD 10 0 = 0xff ∧
      ip.getD 11 0 = 0xff then
    (ip.drop 12).take 4
  else []

/-! ## `makeRemoteConn` -/

/-- Modelled from the spec: the functions `TLS.ComposeInitHandshake` and
`TLS.ComposeReply` of the package `internal/client/TLS`, which are not part of the
source at hand (§4.1: the first composes the camouflaged initial message from the
client state, the second the camouflaged reply); their outputs are left
unspecified.  With them the Go library's `rand.Seed(seed); rand.Uint32()`, as the
function `randUint32` of the seed. -/
structure Lib where
  ComposeInitHandshake : State → List Byte
  ComposeReply : List Byte
  randUint32 : Int → Nat

/-- The outcomes of the input and output steps of one call of `makeRemoteConn`:
of `d.Dial`, of the `Write` of the ClientHello, of the `c`-th `util.ReadTLS`, and
of the `Write` of the reply. -/
structure Attempt where
  dial : Outcome Endpoint
  hello : Option Err
  reads : Nat → Option Err
  reply : Option Err

/-- The address `makeRemoteConn` dials: `connectingIP + ":" + sta.SS_REMOTE_PORT`,
where `connectingIP` is `sta.SS_REMOTE_HOST`, put between square brackets when
`net.ParseIP(connectingIP).To4() == nil`. -/
def dialAddr (sta : State) : String :=
  let connectingIP := sta.SS_REMOTE_HOST
  let connectingIP :=
    if To4 (ParseIP connectingIP) = [] then "[" ++ connectingIP ++ "]" else connectingIP
  connectingIP ++ ":" ++ sta.SS_REMOTE_PORT

/-- The loop `for c := 0; c < 3; c++` of `makeRemoteConn` from counter `c` with
`left` iterations to go: `util.ReadTLS(remoteConn, discardBuf)` with a buffer of
1024 bytes; the first error ends the function. -/
def discardLoop (reads : Nat → Option Err) (remoteConn : Endpoint) :
    Nat → Nat → List Event × Option Err
  | 0, _ => ([], none)
  | left + 1, c =>
    match reads c with
    | some e =>
      ([.readTLS remoteConn 1024 (some e),
        .log ("Reading discarded message " ++ toString c ++ ": " ++ e)], some e)
    | none =>
      let r := discardLoop reads remoteConn left (c + 1)
      (.readTLS remoteConn 1024 none :: r.1, r.2)

/-- The function `makeRemoteConn(sta)`: the events it performs and what it
returns, for the outcomes `att` of its input and output steps. -/
def makeRemoteConn (lib : Lib) (sta : State) (att : Attempt) :
    List Event × Outcome Endpoint :=
  let clientHello := lib.ComposeInitHandshake sta
  match att.dial with
  | .error e =>
    ([.composeInitHandshake sta, .dial "tcp" (dialAddr sta) (.error e),
      .log ("Connecting to remote: " ++ e)], .error e)
  | .ok remoteConn =>
    match att.hello with
    | some e =>
      ([.composeInitHandshake sta, .dial "tcp" (dialAddr sta) (.ok remoteConn),
        .write remoteConn clientHello (some e), .log ("Sending ClientHello: " ++ e)],
        .error e)
    | none =>
      match discardLoop att.reads remoteConn 3 0 with
      | (tr, some e) =>
        (.composeInitHandshake sta :: .dial "tcp" (dialAddr sta) (.ok remoteConn) ::
          .write remoteConn clientHello none :: tr, .error e)
      | (tr, none) =>
        match att.reply with
        | some e =>
          (.composeInitHandshake sta :: .dial "tcp" (dialAddr sta) (.ok remoteConn) ::
            .write remoteConn clientHello none ::
            (tr ++ [.composeReply, .write remoteConn lib.ComposeReply (some e),
              .log ("Sending reply to remote: " ++ e)]), .error e)
        | none =>
          (.composeInitHandshake sta :: .dial "tcp" (dialAddr sta) (.ok remoteConn) ::
            .write remoteConn clientHello none ::
            (tr ++ [.composeReply, .write remoteConn lib.ComposeReply none]),
            .ok remoteConn)


/-! ## `makeSession` -/

/-- Modelled from the spec: the type `mux.Valve` of the package
`internal/multiplex` (not part of the source at hand), as the arguments
`mux.MakeValve` was given (§3: two directional rate parameters and two absolute
caps). -/
structure Valve where
  rxRate : Int
  txRate : Int
  rxCredit : Int
  txCredit : Int
deriving DecidableEq, Repr

/-- Modelled from the spec: the type `mux.Session` of the package
`internal/multiplex` (not part of the source at hand): a session identifier, a
valve, an obfuscator and a deobfuscator, each given by the key it was made from
(`mux.MakeObfs(key)`, `mux.MakeDeobfs(key)`), and the pool of connections, in the
order `AddConnection` received them (§3). -/
structure Session where
  id : Nat
  valve : Valve
  obfsKey : List Byte
  deobfsKey : List Byte
  conns : List Endpoint
deriving DecidableEq, Repr

/-- Modelled from the spec: `mux.MakeSession(id, valve, obfs, deobfs, util.ReadTLS)`,
a session with an empty pool. -/
def MakeSession (id : Nat) (valve : Valve) (obfsKey deobfsKey : List Byte) : Session :=
  { id := id, valve := valve, obfsKey := obfsKey, deobfsKey := deobfsKey, conns := [] }

/-- Modelled from the spec: `sesh.AddConnection(conn)`, which registers the
connection in the pool (§4.2). -/
def Session.AddConnection (sesh : Session) (conn : Endpoint) : Session :=
  { sesh with conns := sesh.conns ++ [conn] }

/-- The Go constant `time.Second`, in nanoseconds. -/
def second : Nat := 1000000000

/-- Where a worker goroutine of `makeSession` stands. -/
inductive WorkerPC where
  /-- At the label `makeconn`, about to call `makeRemoteConn(sta)`. -/
  | makeconn
  /-- In `time.Sleep(time.Second * 3)` after a failed attempt. -/
  | sleeping
  /-- Holding a connection, about to call `sesh.AddConnection(conn)`. -/
  | connected (conn : Endpoint)
  /-- About to call `wg.Done()`. -/
  | added
  /-- The goroutine has ended. -/
  | finished
deriving DecidableEq, Repr

/-- A worker goroutine: where it stands and the outcomes of the attempts it has
not made yet. -/
structure Worker where
  pc : WorkerPC
  script : List Attempt

/-- Where the goroutine that called `makeSession` stands. -/
inductive MainPC where
  /-- In the loop `for i := 0; i < sta.NumConn; i++`, about to test `i`. -/
  | spawning (i : Nat)
  /-- In `wg.Wait()`. -/
  | waiting
  /-- The `return sesh` statement was executed. -/
  | returned
deriving DecidableEq, Repr

/-- The state of a call of `makeSession`: the shared client state, the session,
the counter of the wait group, the goroutines, and the events so far, each with
the goroutine that performed it (0 is the caller of `makeSession`, `j + 1` the
worker started by iteration `j` of the loop). -/
structure Machine where
  sta : State
  sesh : Session
  wg : Int
  mainPC : MainPC
  workers : List Worker
  trace : List (Nat × Event)

/-- The start of `makeSession(sta)`, up to the loop: the session identifier is
drawn (`rand.Seed(time.Now().UnixNano())`, `rand.Uint32()`, with `now` the clock
reading), stored in the state, and the session is made. -/
def Machine.init (lib : Lib) (sta : State) (now : Int) : Machine :=
  let sessionID := lib.randUint32 now % 4294967296
  let sta1 := sta.SetSessionID sessionID
  let valve : Valve :=
    { rxRate := 1000000000000, txRate := 1000000000000,
      rxCredit := 1000000000000000, txCredit := 1000000000000000 }
  let sesh := MakeSession sessionID valve sta1.UID sta1.UID
  { sta := sta1, sesh := sesh, wg := 0, mainPC := .spawning 0, workers := [],
    trace := [(0, .log "Attemtping to start a new session"), (0, .setSessionID sessionID),
      (0, .muxMakeSession sessionID sta1.UID sta1.UID)] }

/-- One step of the goroutine that called `makeSession`.  `scripts j` holds the
outcomes of the attempts of worker `j`. -/
def Machine.stepMain (scripts : Nat → List Attempt) (m : Machine) : Machine :=
  match m.mainPC with
  | .spawning i =>
    if (i : Int) < m.sta.NumConn then
      -- `wg.Add(1)` and `go func() { ... }()`
      { m with wg := m.wg + 1, mainPC := .spawning (i + 1),
               workers := m.workers ++ [{ pc := .makeconn, script := scripts i }],
               trace := m.trace ++ [(0, .wgAdd)] }
    else { m with mainPC := .waiting }
  | .waiting =>
    if m.wg = 0 then
      { m with mainPC := .returned,
               trace := m.trace ++ [(0, .wgWait),
                 (0, .log ("Session " ++ toString m.sesh.id ++ " established"))] }
    else m
  | .returned => m

/-- One step of worker `j`, which is in state `w`: a whole call of
`makeRemoteConn` (it works on a connection of its own and only reads the shared
state), the sleep after a failed call, `sesh.AddConnection(conn)`, or `wg.Done()`.
A worker whose next attempt has no outcome in its script stays where it is. -/
def Machine.stepWorker (lib : Lib) (j : Nat) (w : Worker) (m : Machine) : Machine :=
  match w.pc with
  | .makeconn =>
    match w.script with
    | [] => m
    | att :: rest =>
      match makeRemoteConn lib m.sta att with
      | (tr, .ok conn) =>
        { m with workers := m.workers.set j { pc := .connected conn, script := rest },
                 trace := m.trace ++ tr.map (fun e => (j + 1, e)) }
      | (tr, .error e) =>
        { m with workers := m.workers.set j { pc := .sleeping, script := rest },
                 trace := m.trace ++ tr.map (fun e => (j + 1, e)) ++
                   [(j + 1, .log ("Failed to establish new connections to remote: " ++ e))] }
  | .sleeping =>
    { m with workers := m.workers.set j { pc := .makeconn, script := w.script },
             trace := m.trace ++ [(j + 1, .sleep (second * 3))] }
  | .connected conn =>
    { m with sesh := m.sesh.AddConnection conn,
             workers := m.workers.set j { pc := .added, script := w.script },
             trace := m.trace ++ [(j + 1, .addConnection m.sesh.id conn)] }
  | .added =>
    { m with wg := m.wg - 1,
             workers := m.workers.set j { pc := .finished, script := w.script },
             trace := m.trace ++ [(j + 1, .wgDone)] }
  | .finished => m

/-- One step of goroutine `tid`; a goroutine that does not exist (yet) or cannot
move leaves the state as it is. -/
def Machine.step (lib : Lib) (scripts : Nat → List Attempt) (tid : Nat) (m : Machine) :
    Machine :=
  match tid with
  | 0 => m.stepMain scripts
  | j + 1 =>
    match m.workers[j]? with
    | none => m
    | some w => m.stepWorker lib j w

/-- The state reached from `m` when the goroutines move in the order `sched`. -/
def Machine.run (lib : Lib) (scripts : Nat → List Attempt) (sched : List Nat) (m : Machine) :
    Machine :=
  sched.foldl (fun st tid => st.step lib scripts tid) m

/-- The function `makeSession(sta)` under the interleaving `sched` of its
goroutines: the events and, if it has returned, the session and the client state
(which `makeSession` changes through the pointer `sta`). -/
def makeSession (lib : Lib) (sta : State) (now : Int) (scripts : Nat → List Attempt)
    (sched : List Nat) : List (Nat × Event) × Option (Session × State) :=
  let m := (Machine.init lib sta now).run lib scripts sched
  (m.trace, if m.mainPC = .returned then some (m.sesh, m.sta) else none)

/-- The events of goroutine `tid`, in order. -/
def traceOf (tid : Nat) (tr : List (Nat × Event)) : List Event :=
  (tr.filter (fun p => p.1 == tid)).map Prod.snd

/-- Everything a worker does from the label `makeconn` on, given the outcomes of
its attempts: attempts followed by a log line and a sleep of three seconds as long
as they fail, then `AddConnection` and `wg.Done()` after the first that succeeds. -/
def workerBody (lib : Lib) (sta : State) (id : Nat) : List Attempt → List Event
  | [] => []
  | att :: rest =>
    match makeRemoteConn lib sta att with
    | (tr, .ok conn) => tr ++ [.addConnection id conn, .wgDone]
    | (tr, .error e) =>
      tr ++ [.log ("Failed to establish new connections to remote: " ++ e),
        .sleep (second * 3)] ++ workerBody lib sta id rest

/-- What a worker in state `w` still has to do. -/
def workerRest (lib : Lib) (sta : State) (id : Nat) (w : Worker) : List Event :=
  match w.pc with
  | .makeconn => workerBody lib sta id w.script
  | .sleeping => .sleep (second * 3) :: workerBody lib sta id w.script
  | .connected conn => [.addConnection id conn, .wgDone]
  | .added => [.wgDone]
  | .finished => []

/-! ## Quantities used to state invariants of `makeSession` -/

/-- 1 for a worker that has not called `wg.Done()` yet, 0 otherwise. -/
def Worker.pending (w : Worker) : Nat :=
  match w.pc with
  | .finished => 0
  | _ => 1

/-- 1 for a worker that has called `sesh.AddConnection`, 0 otherwise. -/
def Worker.hasAdded (w : Worker) : Nat :=
  match w.pc with
  | .added => 1
  | .finished => 1
  | _ => 0

/-- The bookkeeping of `makeSession`: the state is the one holding the session
identifier, the session carries it, the workers started match the loop counter,
the wait group counts the workers that have not called `Done`, the pool holds one
connection per worker that has called `AddConnection`, and the function has
returned only with the counter at zero, past the loop. -/
structure Machine.Counted (sta0 : State) (m : Machine) : Prop where
  sta_eq : m.sta = sta0
  sesh_id : m.sesh.id = sta0.sessionID
  sesh_obfs : m.sesh.obfsKey = sta0.UID
  sesh_deobfs : m.sesh.deobfsKey = sta0.UID
  spawning : ∀ i, m.mainPC = .spawning i →
    m.workers.length = i ∧ ((i : Int) ≤ sta0.NumConn ∨ i = 0)
  past_loop : m.mainPC = .waiting ∨ m.mainPC = .returned →
    (m.workers.length : Int) = sta0.NumConn ∨ (m.workers.length = 0 ∧ sta0.NumConn < 0)
  wg_eq : m.wg = ((m.workers.map Worker.pending).sum : Nat)
  conns_len : m.sesh.conns.length = (m.workers.map Worker.hasAdded).sum
  returned_wg : m.mainPC = .returned → m.wg = 0

/-- What holds of worker `j` in state `w` when the events so far are `tr`: the
attempts it has left are the end of its script, a connection it holds came out of
a successful `makeRemoteConn` of its script, and what it has done followed by what
it still has to do is the whole of `workerBody`. -/
structure WorkerOK (lib : Lib) (scripts : Nat → List Attempt) (sta0 : State)
    (tr : List (Nat × Event)) (j : Nat) (w : Worker) : Prop where
  suffix : w.script <:+ scripts j
  conn_ok : ∀ c, w.pc = .connected c →
    ∃ att ∈ scripts j, (makeRemoteConn lib sta0 att).2 = .ok c
  local_trace : traceOf (j + 1) tr ++ workerRest lib sta0 sta0.sessionID w =
    workerBody lib sta0 sta0.sessionID (scripts j)

/-- Where the contents of the pool and the events of the workers come from: every
started worker is as `WorkerOK` says, a worker not started has done nothing, and
every connection of the pool came out of a successful `makeRemoteConn` of a
started worker. -/
structure Machine.Sourced (lib : Lib) (scripts : Nat → List Attempt) (sta0 : State)
    (m : Machine) : Prop where
  workers_ok : ∀ j w, m.workers[j]? = some w → WorkerOK lib scripts sta0 m.trace j w
  unspawned : ∀ j, m.workers.length ≤ j → traceOf (j + 1) m.trace = []
  conns_ok : ∀ c ∈ m.sesh.conns, ∃ j att, j < m.workers.length ∧ att ∈ scripts j ∧
    (makeRemoteConn lib sta0 att).2 = .ok c

/-- The connections passed to `sesh.AddConnection`, in order. -/
def addedConns : List Event → List Endpoint
  | [] => []
  | .addConnection _ c :: tr => c :: addedConns tr
  | _ :: tr => addedConns tr

/-- The durations of the calls of `time.Sleep`, in order. -/
def sleeps : List Event → List Nat
  | [] => []
  | .sleep ns :: tr => ns :: sleeps tr
  | _ :: tr => sleeps tr

/-- The number of calls of `d.Dial`; every call of `makeRemoteConn` makes one. -/
def dials : List Event → Nat
  | [] => 0
  | .dial _ _ _ :: tr => dials tr + 1
  | _ :: tr => dials tr

/-- What an event after the start of `makeSession` must be like for the session
with the state `sta0`: it does not store a session identifier nor make a session,
a ClientHello is composed from `sta0`, a connection is added to the session whose
identifier `sta0` holds. -/
def Event.inSession (sta0 : State) : Event → Prop
  | .setSessionID _ => False
  | .muxMakeSession _ _ _ => False
  | .composeInitHandshake s => s = sta0
  | .addConnection id _ => id = sta0.sessionID
  | _ => True

/-- The shape of the events of a call of `makeSession` that started in `m0`: the
events of the start, then events that are all as `Event.inSession` says; and the
pool holds the connections of the `AddConnection` events, in order. -/
structure Machine.Traced (m : Machine) (m0 : Machine) : Prop where
  shape : ∃ rest, m.trace = m0.trace ++ rest ∧ ∀ p ∈ rest, p.2.inSession m0.sta
  pool : addedConns (m.trace.map Prod.snd) = m.sesh.conns

/-- The events of one failed round of a worker: the attempt, the log line, the
sleep of three seconds. -/
def retryRound (lib : Lib) (sta : State) (att : Attempt) : List Event :=
  match makeRemoteConn lib sta att with
  | (tr, .error e) =>
    tr ++ [.log ("Failed to establish new connections to remote: " ++ e),
      .sleep (second * 3)]
  | (tr, .ok _) => tr

/-! ## Quantities used to show that `makeSession` can always go on to return -/

/-- The number of attempts of a script that fail before the first that succeeds. -/
def untilGood (lib : Lib) (sta : State) : List Attempt → Nat
  | [] => 0
  | att :: rest =>
    match (makeRemoteConn lib sta att).2 with
    | .ok _ => 0
    | .error _ => untilGood lib sta rest + 1

/-- Some attempt of the script succeeds. -/
def hasGood (lib : Lib) (sta : State) (script : List Attempt) : Prop :=
  ∃ att ∈ script, ∃ c, (makeRemoteConn lib sta att).2 = .ok c

/-- The number of steps a worker still takes before it ends, when some attempt it
has left succeeds. -/
def Worker.cost (lib : Lib) (sta : State) (w : Worker) : Nat :=
  match w.pc with
  | .makeconn => 3 + 2 * untilGood lib sta w.script
  | .sleeping => 4 + 2 * untilGood lib sta w.script
  | .connected _ => 2
  | .added => 1
  | .finished => 0

/-- The steps still to take for the `n` workers from number `i` on that are not
started yet: one step of the loop to start each, then the steps of the worker. -/
def unspawnedCost (lib : Lib) (sta : State) (scripts : Nat → List Attempt) : Nat → Nat → Nat
  | _, 0 => 0
  | i, n + 1 =>
    1 + (3 + 2 * untilGood lib sta (scripts i)) + unspawnedCost lib sta scripts (i + 1) n

/-- The steps the goroutine that called `makeSession` still takes, with those of
the workers it has not started yet. -/
def mainCost (lib : Lib) (sta : State) (scripts : Nat → List Attempt) : MainPC → Nat
  | .spawning i => 2 + unspawnedCost lib sta scripts i (sta.NumConn.toNat - i)
  | .waiting => 1
  | .returned => 0

/-- The number of steps after which `makeSession` has returned if only goroutines
that can move are scheduled. -/
def Machine.cost (lib : Lib) (scripts : Nat → List Attempt) (m : Machine) : Nat :=
  mainCost lib m.sta scripts m.mainPC + (m.workers.map (Worker.cost lib m.sta)).sum

/-- Every worker among those selected by `sel` that still has to connect has a
successful attempt left. -/
def Machine.Live (lib : Lib) (sta0 : State) (sel : Nat → Prop) (m : Machine) : Prop :=
  ∀ (j : Nat) (w : Worker), sel j → m.workers[j]? = some w →
    w.pc = .makeconn ∨ w.pc = .sleeping → hasGood lib sta0 w.script

/-- Everything a worker does whose attempts `fails` all fail and whose next
attempt `good` yields the connection `conn`: a failed round for each of `fails`,
the successful attempt, `AddConnection`, `wg.Done()`. -/
def retryTrace (lib : Lib) (sta : State) (fails : List Attempt) (good : Attempt)
    (conn : Endpoint) : List Event :=
  (fails.map (retryRound lib sta)).flatten ++ (makeRemoteConn lib sta good).1 ++
    [.addConnection sta.sessionID conn, .wgDone]


/-! ## `main` -/

/-- Observable events of `main`. -/
inductive MainEvent where
  /-- The call `log.Fatal(msg)`: the message is printed and the process exits. -/
  | fatal (msg : String)
  /-- A line written by `log.Println` or `fmt.Printf`. -/
  | print (msg : String)
  /-- The call `flag.Usage()`. -/
  | usage
  /-- The call `adminPrompt(sta)` returned `err`. -/
  | adminPrompt (sta : State) (err : Option Err)
  /-- The call `net.Listen(network, addr)` returned `err`. -/
  | listen (network addr : String) (err : Option Err)
  /-- The call `listener.Accept()` returned. -/
  | accept (res : Outcome Endpoint)
  /-- The call `sesh.IsBroken()` on the session with identifier `id` returned. -/
  | isBroken (id : Nat) (res : Bool)
  /-- The call `makeSession(sta)`: the events of its goroutines and, if it
  returned, the session. -/
  | makeSession (events : List (Nat × Event)) (res : Option Session)
  /-- The statement `go func() { ... }()` starting the handler of `ssConn`, with
  the identifier of the session the variable `sesh` holds at that moment. -/
  | goHandler (ssConn : Endpoint) (id : Nat)
deriving DecidableEq, Repr

/-- How a run of `main` stands. -/
inductive MainStatus where
  /-- The process has exited through `log.Fatal`. -/
  | exited
  /-- The function `main` has returned. -/
  | returned
  /-- Suspended for ever in a call of `makeSession` that does not return. -/
  | inMakeSession
  /-- In the accept loop, waiting in `listener.Accept()`. -/
  | accepting
deriving DecidableEq, Repr

/-- What the outside world does during one iteration of the accept loop: the
result of `listener.Accept()`, what `sesh.IsBroken()` answers if it is asked, and,
for the case that `makeSession` is called, the clock reading, the outcomes of the
attempts of its workers and the interleaving of its goroutines. -/
structure AcceptRound where
  accept : Outcome Endpoint
  broken : Bool
  now : Int
  scripts : Nat → List Attempt
  sched : List Nat

/-- The test `sesh == nil || sesh.IsBroken()`: the events it causes (`IsBroken` is
called only on a session that is there) and its value. -/
def needSession (sesh : Option Session) (broken : Bool) : List MainEvent × Bool :=
  match sesh with
  | none => ([], true)
  | some s => ([.isBroken s.id broken], broken)

/-- The identifier of the session the variable `sesh` holds (0 for nil). -/
def seshId (sesh : Option Session) : Nat :=
  match sesh with
  | none => 0
  | some s => s.id

/-- The loop `for { ssConn, err := listener.Accept() ... }` of `main`, for the
iterations described by the list of rounds; `sta` is the client state and `sesh`
the variable `sesh` (`none` is nil). -/
def acceptLoop (lib : Lib) : State → Option Session → List AcceptRound →
    List MainEvent × MainStatus × State × Option Session
  | sta, sesh, [] => ([], .accepting, sta, sesh)
  | sta, sesh, r :: rounds =>
    match r.accept with
    | .error e =>
      -- `log.Println(err); continue`
      let rest := acceptLoop lib sta sesh rounds
      (.accept (.error e) :: .print e :: rest.1, rest.2)
    | .ok ssConn =>
      let test := needSession sesh r.broken
      if test.2 then
        -- `sesh = makeSession(sta)`
        match makeSession lib sta r.now r.scripts r.sched with
        | (tr, none) =>
          (.accept (.ok ssConn) :: (test.1 ++ [.makeSession tr none]), .inMakeSession, sta, sesh)
        | (tr, some (s1, sta1)) =>
          let rest := acceptLoop lib sta1 (some s1) rounds
          (.accept (.ok ssConn) ::
            (test.1 ++ .makeSession tr (some s1) :: .goHandler ssConn s1.id :: rest.1), rest.2)
      else
        let rest := acceptLoop lib sta sesh rounds
        (.accept (.ok ssConn) :: (test.1 ++ .goHandler ssConn (seshId sesh) :: rest.1), rest.2)

/-- The address `main` listens on: `listeningIP + ":" + sta.SS_LOCAL_PORT`, where
`listeningIP` is `sta.SS_LOCAL_HOST`, put between square brackets when
`net.ParseIP(listeningIP).To4() == nil`. -/
def listenAddr (sta : State) : String :=
  let listeningIP := sta.SS_LOCAL_HOST
  let listeningIP :=
    if To4 (ParseIP listeningIP) = [] then "[" ++ listeningIP ++ "]" else listeningIP
  listeningIP ++ ":" ++ sta.SS_LOCAL_PORT

/-- The function `main` from the point where `sta.ParseConfig(pluginOpts)` has
succeeded in non-admin mode and left the state `sta`: the three checks, the
listener (`listenErr` is the error of `net.Listen`), the accept loop. -/
def mainConfigured (lib : Lib) (sta : State) (listenErr : Option Err)
    (rounds : List AcceptRound) : List MainEvent × MainStatus :=
  if sta.SS_LOCAL_PORT = "" then ([.fatal "Must specify localPort"], .exited)
  else if sta.SS_REMOTE_HOST = "" then ([.fatal "Must specify remoteHost"], .exited)
  else if sta.TicketTimeHint = 0 then
    ([.fatal "TicketTimeHint cannot be empty or 0"], .exited)
  else
    match listenErr with
    | some e =>
      ([.listen "tcp" (listenAddr sta) (some e),
        .print ("Listening for ss on " ++ listenAddr sta), .fatal e], .exited)
    | none =>
      let r := acceptLoop lib sta none rounds
      (.listen "tcp" (listenAddr sta) none ::
        .print ("Listening for ss on " ++ listenAddr sta) :: r.1, r.2.1)

/-- What `main` is started with: whether the environment variable `SS_LOCAL_HOST`
is empty (standalone mode, where the flags are parsed), the flags `-v`, `-h` and
`-a`, the version string, the result of `client.InitState` followed by
`sta.ParseConfig(pluginOpts)` (the state on success), and the result of
`adminPrompt`. -/
structure Startup where
  standalone : Bool
  askVersion : Bool
  printUsage : Bool
  adminFlag : Bool
  version : String
  parsed : Outcome State
  prompt : Option Err

/-- The function `main`. -/
def main (lib : Lib) (st : Startup) (listenErr : Option Err) (rounds : List AcceptRound) :
    List MainEvent × MainStatus :=
  let start : List MainEvent := if st.standalone then [.print "Starting standalone mode"] else []
  if st.standalone ∧ st.askVersion then ([.print ("ck-client " ++ st.version)], .returned)
  else if st.standalone ∧ st.printUsage then ([.usage], .returned)
  else if st.standalone ∧ st.adminFlag then
    match st.parsed with
    | .error e => (start ++ [.fatal e], .exited)
    | .ok sta =>
      match st.prompt with
      | some e => (start ++ [.adminPrompt sta (some e), .print e], .returned)
      | none => (start ++ [.adminPrompt sta none], .returned)
  else
    match st.parsed with
    | .error e => (start ++ [.fatal e], .exited)
    | .ok sta =>
      let r := mainConfigured lib sta listenErr rounds
      (start ++ r.1, r.2)


/-! ## Concrete inputs used to exercise the definitions -/

/-- A library whose composed messages are short fixed byte strings. -/
def exampleLib : Lib :=
  { ComposeInitHandshake := fun sta => [22, 3, 1, sta.sessionID % 256],
    ComposeReply := [23, 3, 3],
    randUint32 := fun seed => (seed % 4294967296).toNat }

/-- A client state for a server at the IPv4 address 203.0.113.5. -/
def exampleState : State :=
  { SS_LOCAL_HOST := "127.0.0.1", SS_LOCAL_PORT := "1984", SS_REMOTE_HOST := "203.0.113.5",
    SS_REMOTE_PORT := "443", sessionID := 0, UID := [1, 2, 3], TicketTimeHint := 3600,
    NumConn := 2 }

/-- An attempt in which every step succeeds, on connection `id`. -/
def goodAttempt (id : Nat) : Attempt :=
  { dial := .ok (.conn id), hello := none, reads := fun _ => none, reply := none }

/-- An attempt whose first `util.ReadTLS` fails, on connection `id`. -/
def badReadAttempt (id : Nat) : Attempt :=
  { dial := .ok (.conn id), hello := none, reads := fun _ => some "EOF", reply := none }

/-- A start in plugin mode (environment variables set) whose configuration lacks
the local port. -/
def noPortStartup : Startup :=
  { standalone := false, askVersion := false, printUsage := false, adminFlag := false,
    version := "", parsed := .ok { exampleState with SS_LOCAL_PORT := "" }, prompt := none }

/-- A round of the accept loop in which connection 9 is accepted and, should
`makeSession` be called, both workers connect at once. -/
def exampleRound : AcceptRound :=
  { accept := .ok (.conn 9), broken := true, now := 777,
    scripts := fun j => [goodAttempt (j + 1)], sched := [0, 0, 0, 1, 1, 1, 2, 2, 2, 0] }

/-- The session `makeSession` returns in `exampleRound` from `exampleState`. -/
def exampleSession : Session :=
  { id := 777,
    valve := { rxRate := 1000000000000, txRate := 1000000000000,
               rxCredit := 1000000000000000, txCredit := 1000000000000000 },
    obfsKey := [1, 2, 3], deobfsKey := [1, 2, 3], conns := [.conn 1, .conn 2] }


/-! # Theorems -/

/-! ## `io.ReadAtLeast` -/

theorem offered_cons (it : ReadItem) (rest : List ReadItem) :
    offered (it :: rest) = it.data ++ offered rest := by
  simp [offered]

theorem readLoop_ok {cap : Nat} {items pending : List ReadItem} {buf : List Byte}
    (hcap : 1 ≤ cap) (h : readLoop cap items = (.ok buf, pending)) :
    1 ≤ buf.length ∧ buf.length ≤ cap ∧ offered items = buf ++ offered pending ∧
      pipeWork pending < pipeWork items ∧
      deliveredBeforeFailure items = buf ++ deliveredBeforeFailure pending := by
  induction items with
  | nil => simp [readLoop] at h
  | cons it rest ih =>
    simp only [readLoop, Read] at h
    by_cases hfit : it.data.length ≤ cap
    · simp only [hfit, if_true] at h
      by_cases hne : 1 ≤ it.data.length
      · simp only [hne, if_true, Prod.mk.injEq, ReadResult.ok.injEq] at h
        obtain ⟨rfl, rfl⟩ := h
        have hd : it.data ≠ [] := by
          intro h0; rw [h0] at hne; simp at hne
        refine ⟨hne, hfit, offered_cons _ _, ?_, ?_⟩
        · simp [pipeWork, offered_cons]; omega
        · simp [deliveredBeforeFailure, hd]
      · simp only [hne, if_false] at h
        have hd : it.data = [] := by
          cases hdat : it.data with
          | nil => rfl
          | cons a l => rw [hdat] at hne; simp at hne
        cases herr : it.err with
        | some e => rw [herr] at h; simp at h
        | none =>
          rw [herr] at h
          obtain ⟨h1, h2, h3, h4, h5⟩ := ih h
          refine ⟨h1, h2, ?_, ?_, ?_⟩
          · rw [offered_cons, hd, h3]; rfl
          · simp only [pipeWork, offered_cons, hd] at h4 ⊢
            simp at h4 ⊢; omega
          · simp [deliveredBeforeFailure, hd, herr, h5]
    · simp only [hfit, if_false] at h
      have hlen : (List.take cap it.data).length = cap := by
        rw [List.length_take]; omega
      simp only [hlen, hcap, if_true, Prod.mk.injEq, ReadResult.ok.injEq] at h
      obtain ⟨rfl, rfl⟩ := h
      have hd : it.data ≠ [] := by
        intro h0; rw [h0] at hfit; simp at hfit
      refine ⟨by omega, by omega, ?_, ?_, ?_⟩
      · rw [offered_cons, offered_cons, ← List.append_assoc, List.take_append_drop]
      · simp [pipeWork, offered_cons]; omega
      · have hdrop : ¬ (List.drop cap it.data = []) := by
          intro h0
          have := congrArg List.length h0
          simp at this; omega
        simp only [deliveredBeforeFailure, hd, hdrop, false_and, if_false]
        rw [← List.append_assoc, List.take_append_drop]

theorem readLoop_failed {cap : Nat} {items pending : List ReadItem} {e : Err}
    (hcap : 1 ≤ cap) (h : readLoop cap items = (.failed e, pending)) :
    deliveredBeforeFailure items = [] := by
  induction items with
  | nil => simp [readLoop] at h
  | cons it rest ih =>
    simp only [readLoop, Read] at h
    by_cases hfit : it.data.length ≤ cap
    · simp only [hfit, if_true] at h
      by_cases hne : 1 ≤ it.data.length
      · simp [hne] at h
      · simp only [hne, if_false] at h
        have hd : it.data = [] := by
          cases hdat : it.data with
          | nil => rfl
          | cons a l => rw [hdat] at hne; simp at hne
        cases herr : it.err with
        | some e0 => simp [deliveredBeforeFailure, hd, herr]
        | none =>
          rw [herr] at h
          simp [deliveredBeforeFailure, hd, herr, ih h]
    · simp only [hfit, if_false] at h
      have hlen : (List.take cap it.data).length = cap := by
        rw [List.length_take]; omega
      simp [hlen, hcap] at h

theorem readLoop_blocked {cap : Nat} {items pending : List ReadItem}
    (hcap : 1 ≤ cap) (h : readLoop cap items = (.blocked, pending)) :
    deliveredBeforeFailure items = [] := by
  induction items with
  | nil => simp [deliveredBeforeFailure]
  | cons it rest ih =>
    simp only [readLoop, Read] at h
    by_cases hfit : it.data.length ≤ cap
    · simp only [hfit, if_true] at h
      by_cases hne : 1 ≤ it.data.length
      · simp [hne] at h
      · simp only [hne, if_false] at h
        have hd : it.data = [] := by
          cases hdat : it.data with
          | nil => rfl
          | cons a l => rw [hdat] at hne; simp at hne
        cases herr : it.err with
        | some e0 => rw [herr] at h; simp at h
        | none =>
          rw [herr] at h
          simp [deliveredBeforeFailure, hd, herr, ih h]
    · simp only [hfit, if_false] at h
      have hlen : (List.take cap it.data).length = cap := by
        rw [List.length_take]; omega
      simp [hlen, hcap] at h

theorem ReadAtLeast_ok {cap : Nat} {items pending : List ReadItem} {buf : List Byte}
    (h : ReadAtLeast cap items = (.ok buf, pending)) :
    1 ≤ buf.length ∧ buf.length ≤ cap ∧ offered items = buf ++ offered pending ∧
      pipeWork pending < pipeWork items ∧
      deliveredBeforeFailure items = buf ++ deliveredBeforeFailure pending := by
  unfold ReadAtLeast at h
  split at h
  · simp at h
  · exact readLoop_ok (by omega) h

theorem ReadAtLeast_failed {cap : Nat} {items pending : List ReadItem} {e : Err}
    (hcap : 1 ≤ cap) (h : ReadAtLeast cap items = (.failed e, pending)) :
    deliveredBeforeFailure items = [] := by
  have hc : ¬ cap < 1 := by omega
  simp only [ReadAtLeast, hc, if_false] at h
  exact readLoop_failed hcap h

theorem ReadAtLeast_blocked {cap : Nat} {items pending : List ReadItem}
    (hcap : 1 ≤ cap) (h : ReadAtLeast cap items = (.blocked, pending)) :
    deliveredBeforeFailure items = [] := by
  have hc : ¬ cap < 1 := by omega
  simp only [ReadAtLeast, hc, if_false] at h
  exact readLoop_blocked hcap h

/-! ## `pipe` -/

/-- The three ways one iteration of the loop of `pipe` can go, and the run that
results. -/
theorem pipe_succ (dst src : Endpoint) (wr : Nat → Option Err) (fuel k : Nat)
    (items : List ReadItem) :
    (∃ pending, ReadAtLeast 16396 items = (.blocked, pending) ∧
        pipe dst src wr (fuel + 1) k items = ([], .blocked)) ∨
    (∃ e pending, ReadAtLeast 16396 items = (.failed e, pending) ∧
        pipe dst src wr (fuel + 1) k items =
          ([.readAtLeast src 16396 (.error e), .goClose dst, .goClose src], .returned)) ∨
    (∃ buf pending e, ReadAtLeast 16396 items = (.ok buf, pending) ∧ wr k = some e ∧
        pipe dst src wr (fuel + 1) k items =
          ([.readAtLeast src 16396 (.ok buf), .write dst buf (some e),
            .goClose dst, .goClose src], .returned)) ∨
    (∃ buf pending, ReadAtLeast 16396 items = (.ok buf, pending) ∧ wr k = none ∧
        pipe dst src wr (fuel + 1) k items =
          (.readAtLeast src 16396 (.ok buf) :: .write dst buf none ::
              (pipe dst src wr fuel (k + 1) pending).1,
            (pipe dst src wr fuel (k + 1) pending).2)) := by
  rcases hr : ReadAtLeast 16396 items with ⟨res, pending⟩
  cases res with
  | blocked => left; exact ⟨pending, rfl, by simp [pipe, hr]⟩
  | failed e => right; left; exact ⟨e, pending, rfl, by simp [pipe, hr]⟩
  | ok buf =>
    cases hw : wr k with
    | some e => right; right; left; exact ⟨buf, pending, e, rfl, rfl, by simp [pipe, hr, hw]⟩
    | none => right; right; right; exact ⟨buf, pending, rfl, rfl, by simp [pipe, hr, hw]⟩

theorem pipe_writes_eq_reads (dst src : Endpoint) (wr : Nat → Option Err) (fuel k : Nat)
    (items : List ReadItem) :
    writeBufs (pipe dst src wr fuel k items).1 = readChunks (pipe dst src wr fuel k items).1 := by
  induction fuel generalizing k items with
  | zero => simp [pipe, writeBufs, readChunks]
  | succ fuel ih =>
    rcases pipe_succ dst src wr fuel k items with ⟨_, _, h⟩ | ⟨_, _, _, h⟩ |
      ⟨_, _, _, _, _, h⟩ | ⟨_, pending, _, _, h⟩
    · simp [h, writeBufs, readChunks]
    · simp [h, writeBufs, readChunks]
    · simp [h, writeBufs, readChunks]
    · simp [h, writeBufs, readChunks, ih (k + 1) pending]

theorem pipe_written_prefix_delivered (dst src : Endpoint) (wr : Nat → Option Err)
    (fuel k : Nat) (items : List ReadItem) :
    (writeBufs (pipe dst src wr fuel k items).1).flatten <+: deliveredBeforeFailure items := by
  induction fuel generalizing k items with
  | zero => simp [pipe, writeBufs]
  | succ fuel ih =>
    rcases pipe_succ dst src wr fuel k items with ⟨_, _, h⟩ | ⟨_, _, _, h⟩ |
      ⟨buf, pending, _, hr, _, h⟩ | ⟨buf, pending, hr, _, h⟩
    · simp [h, writeBufs]
    · simp [h, writeBufs]
    · rw [h]
      simp only [writeBufs, List.flatten_cons, List.flatten_nil, List.append_nil]
      rw [(ReadAtLeast_ok hr).2.2.2.2]
      exact List.prefix_append _ _
    · rw [h]
      simp only [writeBufs, List.flatten_cons]
      rw [(ReadAtLeast_ok hr).2.2.2.2]
      exact (List.prefix_append_right_inj buf).mpr (ih (k + 1) pending)

theorem deliveredBeforeFailure_prefix_offered (items : List ReadItem) :
    deliveredBeforeFailure items <+: offered items := by
  induction items with
  | nil => simp [deliveredBeforeFailure]
  | cons it rest ih =>
    rw [offered_cons]
    simp only [deliveredBeforeFailure]
    split
    · exact List.nil_prefix
    · exact (List.prefix_append_right_inj it.data).mpr ih

theorem pipe_runs_out (dst src : Endpoint) (wr : Nat → Option Err) (fuel k : Nat)
    (items : List ReadItem) (hfuel : pipeWork items < fuel) :
    (pipe dst src wr fuel k items).2 ≠ .running := by
  induction fuel generalizing k items with
  | zero => omega
  | succ fuel ih =>
    rcases pipe_succ dst src wr fuel k items with ⟨_, _, h⟩ | ⟨_, _, _, h⟩ |
      ⟨_, _, _, _, _, h⟩ | ⟨buf, pending, hr, _, h⟩
    · simp [h]
    · simp [h]
    · simp [h]
    · rw [h]
      have := (ReadAtLeast_ok hr).2.2.2.1
      exact ih (k + 1) pending (by omega)

theorem pipe_written_all (dst src : Endpoint) (wr : Nat → Option Err)
    (hwr : ∀ j, wr j = none) (fuel k : Nat) (items : List ReadItem)
    (hfuel : pipeWork items < fuel) :
    (writeBufs (pipe dst src wr fuel k items).1).flatten = deliveredBeforeFailure items := by
  induction fuel generalizing k items with
  | zero => omega
  | succ fuel ih =>
    rcases pipe_succ dst src wr fuel k items with ⟨_, hr, h⟩ | ⟨_, _, hr, h⟩ |
      ⟨_, _, _, _, hw, _⟩ | ⟨buf, pending, hr, _, h⟩
    · simp [h, writeBufs, ReadAtLeast_blocked (by decide) hr]
    · simp [h, writeBufs, ReadAtLeast_failed (by decide) hr]
    · rw [hwr k] at hw; cases hw
    · rw [h]
      have hok := ReadAtLeast_ok hr
      simp only [writeBufs, List.flatten_cons]
      rw [hok.2.2.2.2, ih (k + 1) pending (by omega)]

theorem pipeWork_single (p : List Byte) :
    pipeWork [{ data := p, err := none }] = 1 + p.length := by
  simp [pipeWork, offered]

theorem deliveredBeforeFailure_single (p : List Byte) :
    deliveredBeforeFailure [{ data := p, err := none }] = p := by
  simp [deliveredBeforeFailure]

/-- C3: the buffers `pipe` passes to `dst.Write` are exactly the chunks it read
from `src`, in order; their concatenation is an initial segment of what `src`
delivers; and when no write fails and the run is followed to its end, it is
everything `src` delivers before its first failing read. -/
theorem pipe_relays_bytes (dst src : Endpoint) (wr : Nat → Option Err) (fuel : Nat)
    (items : List ReadItem) :
    writeBufs (pipe dst src wr fuel 0 items).1 = readChunks (pipe dst src wr fuel 0 items).1 ∧
    (writeBufs (pipe dst src wr fuel 0 items).1).flatten <+:
      (readChunks (pipe dst src wr fuel 0 items).1).flatten ∧
    (writeBufs (pipe dst src wr fuel 0 items).1).flatten <+: offered items ∧
    ((∀ j, wr j = none) → pipeWork items < fuel →
      (writeBufs (pipe dst src wr fuel 0 items).1).flatten = deliveredBeforeFailure items) := by
  refine ⟨pipe_writes_eq_reads _ _ _ _ _ _, ?_, ?_, ?_⟩
  · rw [pipe_writes_eq_reads]
  · exact (pipe_written_prefix_delivered _ _ _ _ _ _).trans
      (deliveredBeforeFailure_prefix_offered _)
  · intro hwr hfuel
    exact pipe_written_all _ _ _ hwr _ _ _ hfuel

/-- Witness for C3: a source offering one 20,000-byte payload, a destination whose
writes all succeed: the 20,000 bytes arrive unchanged. -/
theorem pipe_relays_bytes_witness :
    (∀ j : Nat, (fun _ : Nat => (none : Option Err)) j = none) ∧
    pipeWork [{ data := List.replicate 20000 7, err := none }] < 20002 ∧
    (writeBufs (pipe (.stream 1) (.conn 1) (fun _ => none) 20002 0
      [{ data := List.replicate 20000 7, err := none }]).1).flatten = List.replicate 20000 7 := by
  have hw : pipeWork [{ data := List.replicate 20000 7, err := none }] < 20002 := by
    rw [pipeWork_single, List.length_replicate]
    decide
  refine ⟨fun _ => rfl, hw, ?_⟩
  have h := (pipe_relays_bytes (.stream 1) (.conn 1) (fun _ => none) 20002
    [{ data := List.replicate 20000 7, err := none }]).2.2.2 (fun _ => rfl) hw
  rw [h]
  exact deliveredBeforeFailure_single _

theorem pipe_write_bounds (dst src : Endpoint) (wr : Nat → Option Err) (fuel k : Nat)
    (items : List ReadItem) :
    ∀ buf ∈ writeBufs (pipe dst src wr fuel k items).1, 1 ≤ buf.length ∧ buf.length ≤ 16396 := by
  induction fuel generalizing k items with
  | zero => simp [pipe, writeBufs]
  | succ fuel ih =>
    rcases pipe_succ dst src wr fuel k items with ⟨_, _, h⟩ | ⟨_, _, _, h⟩ |
      ⟨buf, pending, _, hr, _, h⟩ | ⟨buf, pending, hr, _, h⟩
    · simp [h, writeBufs]
    · simp [h, writeBufs]
    · have hok := ReadAtLeast_ok hr
      simp [h, writeBufs, hok.1, hok.2.1]
    · have hok := ReadAtLeast_ok hr
      rw [h]
      intro b hb
      simp only [writeBufs, List.mem_cons] at hb
      rcases hb with rfl | hb
      · exact ⟨hok.1, hok.2.1⟩
      · exact ih (k + 1) pending b hb

theorem flatten_length_le (c : Nat) (l : List (List Byte)) (h : ∀ b ∈ l, b.length ≤ c) :
    l.flatten.length ≤ c * l.length := by
  induction l with
  | nil => simp
  | cons b l ih =>
    have hb := h b (List.mem_cons_self _ _)
    have hl := ih (fun x hx => h x (List.mem_cons_of_mem _ hx))
    simp only [List.flatten_cons, List.length_append, List.length_cons]
    rw [Nat.mul_succ]
    omega

theorem handler_writeBufs (ssConn : Endpoint) (items : List ReadItem)
    (opened : Outcome Endpoint) (wr : Nat → Option Err) (fuel : Nat) :
    writeBufs (handler ssConn items opened wr fuel).1 = [] ∨
    ∃ data pending stream, ReadAtLeast 10240 items = (.ok data, pending) ∧
      (writeBufs (handler ssConn items opened wr fuel).1 = [data] ∨
       writeBufs (handler ssConn items opened wr fuel).1 =
        data :: writeBufs (pipe stream ssConn wr fuel 1 pending).1) := by
  rcases hr : ReadAtLeast 10240 items with ⟨res, pending⟩
  cases res with
  | blocked => left; simp [handler, hr, writeBufs]
  | failed e => left; simp [handler, hr, writeBufs]
  | ok data =>
    cases opened with
    | error e => left; simp [handler, hr, writeBufs]
    | ok stream =>
      right
      refine ⟨data, pending, stream, rfl, ?_⟩
      cases hw : wr 0 with
      | some e => left; simp [handler, hr, hw, writeBufs]
      | none => right; simp [handler, hr, hw, writeBufs]

/-- C4: every buffer `pipe` passes to `Write` has between 1 and 16396 bytes; the
first buffer the accept handler writes has between 1 and 10240 bytes and all its
later ones (written by its `pipe`) between 1 and 16396; hence `n` relayed bytes
take at least `ceil(n / 16396)` writes, and 20,000 bytes at least two. -/
theorem write_sizes (dst src ssConn : Endpoint) (wr : Nat → Option Err) (fuel k : Nat)
    (items : List ReadItem) (opened : Outcome Endpoint) :
    (∀ buf ∈ writeBufs (pipe dst src wr fuel k items).1,
      1 ≤ buf.length ∧ buf.length ≤ 16396) ∧
    (∀ buf, (writeBufs (handler ssConn items opened wr fuel).1).head? = some buf →
      1 ≤ buf.length ∧ buf.length ≤ 10240) ∧
    (∀ buf ∈ writeBufs (handler ssConn items opened wr fuel).1,
      1 ≤ buf.length ∧ buf.length ≤ 16396) ∧
    ((writeBufs (pipe dst src wr fuel k items).1).flatten.length + 16395) / 16396 ≤
      (writeBufs (pipe dst src wr fuel k items).1).length ∧
    ((writeBufs (pipe dst src wr fuel k items).1).flatten.length = 20000 →
      2 ≤ (writeBufs (pipe dst src wr fuel k items).1).length) := by
  have hp := pipe_write_bounds dst src wr fuel k items
  have hlen := flatten_length_le 16396 _ (fun b hb => (hp b hb).2)
  refine ⟨hp, ?_, ?_, by omega, by omega⟩
  · intro buf hbuf
    rcases handler_writeBufs ssConn items opened wr fuel with h | ⟨data, _, _, hr, h | h⟩
    · rw [h] at hbuf; simp at hbuf
    · rw [h] at hbuf
      simp only [List.head?_cons, Option.some.injEq] at hbuf
      subst hbuf
      exact ⟨(ReadAtLeast_ok hr).1, (ReadAtLeast_ok hr).2.1⟩
    · rw [h] at hbuf
      simp only [List.head?_cons, Option.some.injEq] at hbuf
      subst hbuf
      exact ⟨(ReadAtLeast_ok hr).1, (ReadAtLeast_ok hr).2.1⟩
  · intro buf hbuf
    rcases handler_writeBufs ssConn items opened wr fuel with h | ⟨data, pending, stream, hr, h | h⟩
    · rw [h] at hbuf; simp at hbuf
    · rw [h] at hbuf
      simp only [List.mem_singleton] at hbuf
      subst hbuf
      have := ReadAtLeast_ok hr
      omega
    · rw [h] at hbuf
      simp only [List.mem_cons] at hbuf
      rcases hbuf with rfl | hbuf
      · have := ReadAtLeast_ok hr
        omega
      · exact pipe_write_bounds stream ssConn wr fuel 1 pending buf hbuf

/-- Witness for C4: the 20,000-byte payload is written in at least two buffers. -/
theorem write_sizes_witness :
    (writeBufs (pipe (.stream 1) (.conn 1) (fun _ => none) 20002 0
      [{ data := List.replicate 20000 7, err := none }]).1).flatten.length = 20000 ∧
    2 ≤ (writeBufs (pipe (.stream 1) (.conn 1) (fun _ => none) 20002 0
      [{ data := List.replicate 20000 7, err := none }]).1).length := by
  have hw : pipeWork [{ data := List.replicate 20000 7, err := none }] < 20002 := by
    rw [pipeWork_single, List.length_replicate]
    decide
  have h := pipe_written_all (.stream 1) (.conn 1) (fun _ => none) (fun _ => rfl) 20002 0
    [{ data := List.replicate 20000 7, err := none }] hw
  have hl : (writeBufs (pipe (.stream 1) (.conn 1) (fun _ => none) 20002 0
      [{ data := List.replicate 20000 7, err := none }]).1).flatten.length = 20000 := by
    rw [h, deliveredBeforeFailure_single, List.length_replicate]
  exact ⟨hl, (write_sizes (.stream 1) (.conn 1) (.conn 1) (fun _ => none) 20002 0
    [{ data := List.replicate 20000 7, err := none }] (.ok (.stream 1))).2.2.2.2 hl⟩

theorem closes_append (a b : List Event) : closes (a ++ b) = closes a ++ closes b := by
  induction a with
  | nil => rfl
  | cons x a ih => cases x <;> simp [closes, ih]

theorem closes_failure_then_goClose (ev : Event) (dst src : Endpoint)
    (h : ev.isFailure = true) : closes [ev, .goClose dst, .goClose src] = [dst, src] := by
  cases ev <;> first | rfl | (simp [Event.isFailure] at h)

theorem pipe_not_returned (dst src : Endpoint) (wr : Nat → Option Err) (fuel k : Nat)
    (items : List ReadItem) (h : (pipe dst src wr fuel k items).2 ≠ .returned) :
    (∀ e ∈ (pipe dst src wr fuel k items).1, e.isFailure = false) ∧
      closes (pipe dst src wr fuel k items).1 = [] := by
  induction fuel generalizing k items with
  | zero => simp [pipe, closes]
  | succ fuel ih =>
    rcases pipe_succ dst src wr fuel k items with ⟨_, _, hp⟩ | ⟨_, _, _, hp⟩ |
      ⟨_, _, _, _, _, hp⟩ | ⟨buf, pending, _, _, hp⟩
    · simp [hp, closes]
    · rw [hp] at h; simp at h
    · rw [hp] at h; simp at h
    · rw [hp] at h ⊢
      obtain ⟨h1, h2⟩ := ih (k + 1) pending h
      refine ⟨?_, by simpa [closes] using h2⟩
      intro e he
      simp only [List.mem_cons] at he
      rcases he with rfl | rfl | he
      · rfl
      · rfl
      · exact h1 e he

theorem pipe_returned (dst src : Endpoint) (wr : Nat → Option Err) (fuel k : Nat)
    (items : List ReadItem) (h : (pipe dst src wr fuel k items).2 = .returned) :
    ∃ pre ev, (pipe dst src wr fuel k items).1 = pre ++ [ev, .goClose dst, .goClose src] ∧
      ev.isFailure = true ∧ closes pre = [] ∧
      ∀ e ∈ pre, e.isFailure = false ∧ e.isReadWrite = true := by
  induction fuel generalizing k items with
  | zero => simp [pipe] at h
  | succ fuel ih =>
    rcases pipe_succ dst src wr fuel k items with ⟨_, _, hp⟩ | ⟨e, _, _, hp⟩ |
      ⟨buf, _, e, _, _, hp⟩ | ⟨buf, pending, _, _, hp⟩
    · rw [hp] at h; simp at h
    · exact ⟨[], .readAtLeast src 16396 (.error e), by simp [hp], rfl, rfl, by simp⟩
    · refine ⟨[.readAtLeast src 16396 (.ok buf)], .write dst buf (some e), by simp [hp],
        rfl, rfl, ?_⟩
      intro x hx
      simp only [List.mem_singleton] at hx
      subst hx
      exact ⟨rfl, rfl⟩
    · rw [hp] at h ⊢
      obtain ⟨pre, ev, h1, h2, h3, h4⟩ := ih (k + 1) pending h
      refine ⟨.readAtLeast src 16396 (.ok buf) :: .write dst buf none :: pre, ev, ?_, h2,
        by simpa [closes] using h3, ?_⟩
      · simp [h1]
      · intro x hx
        simp only [List.mem_cons] at hx
        rcases hx with rfl | rfl | hx
        · exact ⟨rfl, rfl⟩
        · exact ⟨rfl, rfl⟩
        · exact h4 x hx

/-- The shape of the events of `pipe`: it has returned exactly when a read or a
write among them failed.  When it has returned,
its events are successful reads and writes only, then the one failing read or
write, then `Close` on `dst` and on `src`, once each, and nothing after; as long as
nothing has failed there is no `Close` and no return. -/
theorem pipe_trace_shape (dst src : Endpoint) (wr : Nat → Option Err)
    (fuel k : Nat) (items : List ReadItem) :
    ((pipe dst src wr fuel k items).2 = .returned ↔
      ∃ e ∈ (pipe dst src wr fuel k items).1, e.isFailure = true) ∧
    ((pipe dst src wr fuel k items).2 = .returned →
      ∃ pre ev, (pipe dst src wr fuel k items).1 = pre ++ [ev, .goClose dst, .goClose src] ∧
        ev.isFailure = true ∧ closes pre = [] ∧
        (∀ e ∈ pre, e.isFailure = false ∧ e.isReadWrite = true) ∧
        closes (pipe dst src wr fuel k items).1 = [dst, src]) ∧
    ((∀ e ∈ (pipe dst src wr fuel k items).1, e.isFailure = false) →
      (pipe dst src wr fuel k items).2 ≠ .returned ∧
        closes (pipe dst src wr fuel k items).1 = []) := by
  have hret := pipe_returned dst src wr fuel k items
  have hnot := pipe_not_returned dst src wr fuel k items
  refine ⟨⟨?_, ?_⟩, ?_, ?_⟩
  · intro h
    obtain ⟨pre, ev, h1, h2, _⟩ := hret h
    exact ⟨ev, by simp [h1], h2⟩
  · rintro ⟨e, he, hf⟩
    by_contra hn
    have := (hnot hn).1 e he
    rw [hf] at this
    cases this
  · intro h
    obtain ⟨pre, ev, h1, h2, h3, h4⟩ := hret h
    refine ⟨pre, ev, h1, h2, h3, h4, ?_⟩
    rw [h1, closes_append, h3, List.nil_append]
    exact closes_failure_then_goClose ev dst src h2
  · intro h
    have hn : (pipe dst src wr fuel k items).2 ≠ .returned := by
      intro hr
      obtain ⟨pre, ev, h1, h2, _⟩ := hret hr
      have := h ev (by simp [h1])
      rw [h2] at this
      cases this
    exact ⟨hn, (hnot hn).2⟩

theorem closes_relayPairs (dst src : Endpoint) (bufs : List (List Byte)) :
    closes (relayPairs dst src bufs) = [] := by
  induction bufs with
  | nil => rfl
  | cons b bs ih => simpa [relayPairs, closes] using ih

theorem relayPairs_length (dst src : Endpoint) (bufs : List (List Byte)) :
    (relayPairs dst src bufs).length = 2 * bufs.length := by
  induction bufs with
  | nil => rfl
  | cons b bs ih => simp only [relayPairs, List.length_cons, ih]; omega

theorem relayPairs_ok (dst src : Endpoint) (bufs : List (List Byte)) :
    ∀ e ∈ relayPairs dst src bufs, e.isFailure = false ∧ e.isReadWrite = true := by
  induction bufs with
  | nil => simp [relayPairs]
  | cons b bs ih =>
    intro e he
    simp only [relayPairs, List.mem_cons] at he
    rcases he with rfl | rfl | he
    · exact ⟨rfl, rfl⟩
    · exact ⟨rfl, rfl⟩
    · exact ih e he

/-- As long as the reads from the source and the writes to the destination
succeed, `pipe` relays: after `n` iterations that all succeed it has read and
written the first `n` chunks of the source and goes on from there. -/
theorem pipe_good_rounds (dst src : Endpoint) (wr : Nat → Option Err) (n fuel k : Nat)
    (items : List ReadItem)
    (hgood : ∀ i, i < n → (∃ buf, srcRead i items = .ok buf) ∧ wr (k + i) = none) :
    pipe dst src wr (n + fuel) k items =
      (relayPairs dst src (chunks n items) ++
          (pipe dst src wr fuel (k + n) (srcAfter n items)).1,
        (pipe dst src wr fuel (k + n) (srcAfter n items)).2) ∧
    (chunks n items).length = n ∧
    ∀ i, i < n → srcRead i items = .ok ((chunks n items).getD i []) := by
  induction n generalizing k items with
  | zero =>
    refine ⟨?_, rfl, ?_⟩
    · simp [relayPairs, chunks, srcAfter]
    · intro i hi; omega
  | succ n ih =>
    obtain ⟨⟨buf, hbuf⟩, hw⟩ := hgood 0 (by omega)
    simp only [srcRead, srcAfter, Nat.add_zero] at hbuf hw
    rcases hr : ReadAtLeast 16396 items with ⟨res, pending⟩
    rw [hr] at hbuf
    simp only at hbuf
    subst hbuf
    have hgood' : ∀ i, i < n →
        (∃ b, srcRead i pending = .ok b) ∧ wr (k + 1 + i) = none := by
      intro i hi
      obtain ⟨⟨b, hb⟩, hwi⟩ := hgood (i + 1) (by omega)
      refine ⟨⟨b, ?_⟩, ?_⟩
      · simpa only [srcRead, srcAfter, hr] using hb
      · rw [show k + 1 + i = k + (i + 1) by omega]; exact hwi
    obtain ⟨h1, h2, h3⟩ := ih (k + 1) pending hgood'
    have hfuel : n + 1 + fuel = (n + fuel) + 1 := by omega
    have hchunks : chunks (n + 1) items = buf :: chunks n pending := by
      simp [chunks, hr]
    have hafter : srcAfter (n + 1) items = srcAfter n pending := by
      simp [srcAfter, hr]
    have hk : k + (n + 1) = k + 1 + n := by omega
    refine ⟨?_, ?_, ?_⟩
    · rw [hfuel, hchunks, hafter, hk]
      simp only [pipe, hr, hw, h1, relayPairs, List.cons_append]
    · rw [hchunks, List.length_cons, h2]
    · intro i hi
      rw [hchunks]
      cases i with
      | zero => simp [srcRead, srcAfter, hr]
      | succ i =>
        have := h3 i (by omega)
        simpa only [srcRead, srcAfter, hr, List.getD_cons_succ] using this

/-- C5: `pipe` against what its source and its destination do.  Let the first `n`
reads from `src` (calls of `io.ReadAtLeast`) and the first `n` writes to `dst` all
succeed.  Then after `n` iterations `pipe` has done exactly `n` successful reads
each followed by the successful write of the chunk read, has closed nothing and
has not returned.  If read number `n` then fails (end of stream included), or it
succeeds and write number `n` fails, `pipe` does that failing call, then
`go dst.Close()`, then `go src.Close()`, and returns: however long it is followed
there is no further event, and each endpoint has been closed once.  If read
number `n` never returns, `pipe` neither closes nor returns. -/
theorem pipe_stops_at_first_failure (dst src : Endpoint) (wr : Nat → Option Err)
    (n k : Nat) (items : List ReadItem)
    (hgood : ∀ i, i < n → (∃ buf, srcRead i items = .ok buf) ∧ wr (k + i) = none) :
    ((chunks n items).length = n ∧
      ∀ i, i < n → srcRead i items = .ok ((chunks n items).getD i [])) ∧
    (pipe dst src wr n k items = (relayPairs dst src (chunks n items), .running) ∧
      closes (pipe dst src wr n k items).1 = [] ∧
      (pipe dst src wr n k items).2 ≠ .returned) ∧
    (∀ e, srcRead n items = .failed e → ∀ fuel, n < fuel →
      pipe dst src wr fuel k items =
        (relayPairs dst src (chunks n items) ++
          [.readAtLeast src 16396 (.error e), .goClose dst, .goClose src], .returned) ∧
      closes (pipe dst src wr fuel k items).1 = [dst, src]) ∧
    (∀ buf e, srcRead n items = .ok buf → wr (k + n) = some e → ∀ fuel, n < fuel →
      pipe dst src wr fuel k items =
        (relayPairs dst src (chunks n items) ++
          [.readAtLeast src 16396 (.ok buf), .write dst buf (some e),
            .goClose dst, .goClose src], .returned) ∧
      closes (pipe dst src wr fuel k items).1 = [dst, src]) ∧
    (srcRead n items = .blocked → ∀ fuel, n < fuel →
      pipe dst src wr fuel k items = (relayPairs dst src (chunks n items), .blocked) ∧
      closes (pipe dst src wr fuel k items).1 = []) := by
  have hstep : ∀ fuel, n < fuel → pipe dst src wr fuel k items =
      (relayPairs dst src (chunks n items) ++
          (pipe dst src wr (fuel - n - 1 + 1) (k + n) (srcAfter n items)).1,
        (pipe dst src wr (fuel - n - 1 + 1) (k + n) (srcAfter n items)).2) := by
    intro fuel hf
    have h := (pipe_good_rounds dst src wr n (fuel - n - 1 + 1) k items hgood).1
    rw [show n + (fuel - n - 1 + 1) = fuel by omega] at h
    exact h
  obtain ⟨h0, hlen, hidx⟩ := pipe_good_rounds dst src wr n 0 k items hgood
  have hrun : pipe dst src wr n k items = (relayPairs dst src (chunks n items), .running) := by
    rw [Nat.add_zero] at h0
    rw [h0]
    simp [pipe]
  refine ⟨⟨hlen, hidx⟩, ⟨hrun, ?_, ?_⟩, ?_, ?_, ?_⟩
  · rw [hrun]; exact closes_relayPairs dst src _
  · rw [hrun]; simp
  · intro e he fuel hf
    rcases hr : ReadAtLeast 16396 (srcAfter n items) with ⟨res, pending⟩
    have hres : res = .failed e := by
      have := he
      simp only [srcRead, hr] at this
      exact this
    subst hres
    have hp : pipe dst src wr fuel k items =
        (relayPairs dst src (chunks n items) ++
          [.readAtLeast src 16396 (.error e), .goClose dst, .goClose src], .returned) := by
      rw [hstep fuel hf]
      simp [pipe, hr]
    refine ⟨hp, ?_⟩
    rw [hp]
    simp [closes_append, closes_relayPairs, closes]
  · intro buf e hb hw fuel hf
    rcases hr : ReadAtLeast 16396 (srcAfter n items) with ⟨res, pending⟩
    have hres : res = .ok buf := by
      have := hb
      simp only [srcRead, hr] at this
      exact this
    subst hres
    have hp : pipe dst src wr fuel k items =
        (relayPairs dst src (chunks n items) ++
          [.readAtLeast src 16396 (.ok buf), .write dst buf (some e),
            .goClose dst, .goClose src], .returned) := by
      rw [hstep fuel hf]
      simp [pipe, hr, hw]
    refine ⟨hp, ?_⟩
    rw [hp]
    simp [closes_append, closes_relayPairs, closes]
  · intro hb fuel hf
    rcases hr : ReadAtLeast 16396 (srcAfter n items) with ⟨res, pending⟩
    have hres : res = .blocked := by
      have := hb
      simp only [srcRead, hr] at this
      exact this
    subst hres
    have hp : pipe dst src wr fuel k items =
        (relayPairs dst src (chunks n items), .blocked) := by
      rw [hstep fuel hf]
      simp [pipe, hr]
    refine ⟨hp, ?_⟩
    rw [hp]
    exact closes_relayPairs dst src _

/-- Witness for C5: the source delivers three bytes and then fails with `EOF`, the
writes succeed: `pipe` reads and writes the three bytes, meets the failing read,
closes `dst` and `src` and returns. -/
theorem pipe_stops_at_first_failure_witness :
    (∀ i, i < 1 →
      (∃ buf, srcRead i [{ data := [1, 2, 3], err := none },
        { data := [], err := some "EOF" }] = .ok buf) ∧
      (fun _ : Nat => (none : Option Err)) (0 + i) = none) ∧
    srcRead 1 [{ data := [1, 2, 3], err := none }, { data := [], err := some "EOF" }] =
      .failed "EOF" ∧
    1 < 5 ∧
    pipe (.stream 1) (.conn 1) (fun _ => none) 5 0
      [{ data := [1, 2, 3], err := none }, { data := [], err := some "EOF" }] =
      ([.readAtLeast (.conn 1) 16396 (.ok [1, 2, 3]), .write (.stream 1) [1, 2, 3] none,
        .readAtLeast (.conn 1) 16396 (.error "EOF"), .goClose (.stream 1),
        .goClose (.conn 1)], .returned) ∧
    closes (pipe (.stream 1) (.conn 1) (fun _ => none) 5 0
      [{ data := [1, 2, 3], err := none }, { data := [], err := some "EOF" }]).1 =
      [.stream 1, .conn 1] := by
  have hgood : ∀ i, i < 1 →
      (∃ buf, srcRead i [{ data := [1, 2, 3], err := none },
        { data := [], err := some "EOF" }] = .ok buf) ∧
      (fun _ : Nat => (none : Option Err)) (0 + i) = none := by
    intro i hi
    have hi0 : i = 0 := by omega
    subst hi0
    exact ⟨⟨[1, 2, 3], by decide⟩, rfl⟩
  have hfail : srcRead 1 [{ data := [1, 2, 3], err := none },
      { data := [], err := some "EOF" }] = .failed "EOF" := by decide
  have h := (pipe_stops_at_first_failure (.stream 1) (.conn 1) (fun _ => none) 1 0
    [{ data := [1, 2, 3], err := none }, { data := [], err := some "EOF" }] hgood).2.2.1
    "EOF" hfail 5 (by decide)
  exact ⟨hgood, hfail, by decide, h.1, h.2⟩


/-! ## `net.ParseIP` -/

/-- The main loop of `parseIPv6` never needs more iterations than it is given:
once `i + 2 * fuel` reaches 16, one more unit of fuel changes nothing. -/
theorem parseIPv6Loop_fuel (fuel : Nat) (ip : List Nat) (ellipsis : Int) (i : Nat)
    (s : List Char) (h : 16 ≤ i + 2 * fuel) :
    parseIPv6Loop (fuel + 1) ip ellipsis i s = parseIPv6Loop fuel ip ellipsis i s := by
  induction fuel generalizing ip ellipsis i s with
  | zero =>
    have hi : ¬ i < 16 := by omega
    simp [parseIPv6Loop, hi]
  | succ n ih =>
    conv_lhs => unfold parseIPv6Loop
    conv_rhs => unfold parseIPv6Loop
    simp only [ih _ _ (i + 2) _ (by omega)]

/-- Eight iterations are enough for the main loop of `parseIPv6`, wherever it
starts. -/
theorem parseIPv6Loop_eight (extra : Nat) (ip : List Nat) (ellipsis : Int) (i : Nat)
    (s : List Char) :
    parseIPv6Loop (8 + extra) ip ellipsis i s = parseIPv6Loop 8 ip ellipsis i s := by
  induction extra with
  | zero => rfl
  | succ n ih =>
    rw [← Nat.add_assoc, parseIPv6Loop_fuel (8 + n) ip ellipsis i s (by omega), ih]

/-! ## `makeRemoteConn` -/

/-- Whenever `net.ParseIP(host).To4()` is nil the dialed address is the host
between square brackets, a colon and the port. -/
theorem dialAddr_bracketed (sta : State) (h : To4 (ParseIP sta.SS_REMOTE_HOST) = []) :
    dialAddr sta = "[" ++ sta.SS_REMOTE_HOST ++ "]" ++ ":" ++ sta.SS_REMOTE_PORT := by
  simp [dialAddr, h]

/-- Whenever `net.ParseIP(host).To4()` is not nil the dialed address is the host
as it stands, a colon and the port. -/
theorem dialAddr_bare (sta : State) (h : To4 (ParseIP sta.SS_REMOTE_HOST) ≠ []) :
    dialAddr sta = sta.SS_REMOTE_HOST ++ ":" ++ sta.SS_REMOTE_PORT := by
  simp [dialAddr, h]

/-- The IPv6 literals `::1` and `2001:db8::1` are dialed between brackets. -/
theorem dialAddr_ipv6_examples :
    dialAddr { exampleState with SS_REMOTE_HOST := "::1" } = "[::1]:443" ∧
    dialAddr { exampleState with SS_REMOTE_HOST := "2001:db8::1" } = "[2001:db8::1]:443" := by
  decide

/-- C8, at the failing input: `::ffff:1.2.3.4` is a literal `net.ParseIP` accepts
through its IPv6 parser (it contains a colon and parses to sixteen bytes), yet
`To4` of it is not nil, so `makeRemoteConn` dials `::ffff:1.2.3.4:443` and not
`[::ffff:1.2.3.4]:443`. -/
theorem dialAddr_ipv4_mapped_not_bracketed :
    ParseIP "::ffff:1.2.3.4" = [0, 0, 0, 0, 0, 0, 0, 0, 0, 0, 255, 255, 1, 2, 3, 4] ∧
    ParseIP "::ffff:1.2.3.4" = parseIPv6 "::ffff:1.2.3.4".data ∧
    To4 (ParseIP "::ffff:1.2.3.4") = [1, 2, 3, 4] ∧
    dialAddr { exampleState with SS_REMOTE_HOST := "::ffff:1.2.3.4" } = "::ffff:1.2.3.4:443" ∧
    dialAddr { exampleState with SS_REMOTE_HOST := "::ffff:1.2.3.4" } ≠
      "[" ++ "::ffff:1.2.3.4" ++ "]:" ++ "443" ∧
    (makeRemoteConn exampleLib { exampleState with SS_REMOTE_HOST := "::ffff:1.2.3.4" }
      (goodAttempt 7)).1.get? 1 = some (.dial "tcp" "::ffff:1.2.3.4:443" (.ok (.conn 7))) := by
  decide


/-! ## `makeSession`: bookkeeping invariant -/

theorem sum_map_set (f : Worker → Nat) (ws : List Worker) (j : Nat) (w w' : Worker)
    (h : ws[j]? = some w) :
    ((ws.set j w').map f).sum + f w = (ws.map f).sum + f w' := by
  induction ws generalizing j with
  | nil => simp at h
  | cons x ws ih =>
    cases j with
    | zero =>
      simp only [List.getElem?_cons_zero, Option.some.injEq] at h
      subst h
      simp only [List.set_cons_zero, List.map_cons, List.sum_cons]
      omega
    | succ j =>
      simp only [List.getElem?_cons_succ] at h
      have := ih j h
      simp only [List.set_cons_succ, List.map_cons, List.sum_cons]
      omega

theorem le_sum_map (f : Worker → Nat) (ws : List Worker) (j : Nat) (w : Worker)
    (h : ws[j]? = some w) : f w ≤ (ws.map f).sum := by
  induction ws generalizing j with
  | nil => simp at h
  | cons x ws ih =>
    cases j with
    | zero =>
      simp only [List.getElem?_cons_zero, Option.some.injEq] at h
      subst h
      simp only [List.map_cons, List.sum_cons]
      omega
    | succ j =>
      simp only [List.getElem?_cons_succ] at h
      have := ih j h
      simp only [List.map_cons, List.sum_cons]
      omega

theorem Machine.counted_init (lib : Lib) (sta : State) (now : Int) :
    (Machine.init lib sta now).Counted (Machine.init lib sta now).sta := by
  constructor <;> simp [Machine.init, MakeSession, State.SetSessionID]

theorem Machine.counted_stepMain (scripts : Nat → List Attempt) (sta0 : State) (m : Machine)
    (h : m.Counted sta0) : (m.stepMain scripts).Counted sta0 := by
  unfold Machine.stepMain
  cases hpc : m.mainPC with
  | spawning i =>
    obtain ⟨hlen, hle⟩ := h.spawning i hpc
    simp only
    split
    · rename_i hlt
      rw [h.sta_eq] at hlt
      constructor
      · exact h.sta_eq
      · exact h.sesh_id
      · exact h.sesh_obfs
      · exact h.sesh_deobfs
      · intro i' hi'
        simp only [MainPC.spawning.injEq] at hi'
        subst hi'
        simp only [List.length_append, List.length_singleton, hlen, true_and]
        left; push_cast; omega
      · intro hp; simp at hp
      · simp only [List.map_append, List.sum_append, List.map_cons, List.map_nil,
          List.sum_cons, List.sum_nil, Worker.pending]
        rw [h.wg_eq]; push_cast; ring
      · simp only [List.map_append, List.sum_append, List.map_cons, List.map_nil,
          List.sum_cons, List.sum_nil, Worker.hasAdded]
        rw [h.conns_len]; omega
      · intro hp; simp at hp
    · rename_i hlt
      rw [h.sta_eq] at hlt
      constructor
      · exact h.sta_eq
      · exact h.sesh_id
      · exact h.sesh_obfs
      · exact h.sesh_deobfs
      · intro i' hi'; simp at hi'
      · intro _
        rw [hlen]
        omega
      · exact h.wg_eq
      · exact h.conns_len
      · intro hp; simp at hp
  | waiting =>
    simp only
    split
    · rename_i hwg
      constructor
      · exact h.sta_eq
      · exact h.sesh_id
      · exact h.sesh_obfs
      · exact h.sesh_deobfs
      · intro i' hi'; simp at hi'
      · intro _; exact h.past_loop (Or.inl hpc)
      · exact h.wg_eq
      · exact h.conns_len
      · intro _; exact hwg
    · exact h
  | returned => exact h

theorem Machine.counted_update (sta0 : State) (m m' : Machine) (j : Nat) (w w' : Worker)
    (h : m.Counted sta0) (hw : m.workers[j]? = some w)
    (hsta : m'.sta = m.sta) (hid : m'.sesh.id = m.sesh.id)
    (hob : m'.sesh.obfsKey = m.sesh.obfsKey) (hdeob : m'.sesh.deobfsKey = m.sesh.deobfsKey)
    (hpc : m'.mainPC = m.mainPC) (hws : m'.workers = m.workers.set j w')
    (hpend : w.pending = 1)
    (hwg : m'.wg + (w.pending : Int) = m.wg + (w'.pending : Int))
    (hconns : m'.sesh.conns.length + w.hasAdded = m.sesh.conns.length + w'.hasAdded) :
    m'.Counted sta0 := by
  have hp := sum_map_set Worker.pending m.workers j w w' hw
  have ha := sum_map_set Worker.hasAdded m.workers j w w' hw
  have hwg0 := h.wg_eq
  have hc0 := h.conns_len
  constructor
  · rw [hsta]; exact h.sta_eq
  · rw [hid]; exact h.sesh_id
  · rw [hob]; exact h.sesh_obfs
  · rw [hdeob]; exact h.sesh_deobfs
  · intro i hi
    rw [hpc] at hi
    rw [hws, List.length_set]
    exact h.spawning i hi
  · intro hi
    rw [hpc] at hi
    rw [hws, List.length_set]
    exact h.past_loop hi
  · rw [hws]; omega
  · rw [hws]; omega
  · intro hr
    rw [hpc] at hr
    have := h.returned_wg hr
    have := le_sum_map Worker.pending m.workers j w hw
    omega

theorem Machine.counted_stepWorker (lib : Lib) (sta0 : State) (m : Machine) (j : Nat)
    (w : Worker) (h : m.Counted sta0) (hw : m.workers[j]? = some w) :
    (m.stepWorker lib j w).Counted sta0 := by
  unfold Machine.stepWorker
  cases hpc : w.pc with
  | makeconn =>
    simp only
    cases hs : w.script with
    | nil => exact h
    | cons att rest =>
      simp only
      rcases hr : makeRemoteConn lib m.sta att with ⟨tr, res⟩
      cases res with
      | ok conn =>
        exact Machine.counted_update sta0 m _ j w _ h hw rfl rfl rfl rfl rfl rfl
          (by simp [Worker.pending, hpc]) (by simp [Worker.pending, hpc])
          (by simp [Worker.hasAdded, hpc])
      | error e =>
        exact Machine.counted_update sta0 m _ j w _ h hw rfl rfl rfl rfl rfl rfl
          (by simp [Worker.pending, hpc]) (by simp [Worker.pending, hpc])
          (by simp [Worker.hasAdded, hpc])
  | sleeping =>
    exact Machine.counted_update sta0 m _ j w _ h hw rfl rfl rfl rfl rfl rfl
      (by simp [Worker.pending, hpc]) (by simp [Worker.pending, hpc])
      (by simp [Worker.hasAdded, hpc])
  | connected conn =>
    exact Machine.counted_update sta0 m _ j w _ h hw rfl rfl rfl rfl rfl rfl
      (by simp [Worker.pending, hpc]) (by simp [Worker.pending, hpc])
      (by simp [Worker.hasAdded, hpc, Session.AddConnection])
  | added =>
    exact Machine.counted_update sta0 m _ j w _ h hw rfl rfl rfl rfl rfl rfl
      (by simp [Worker.pending, hpc]) (by simp [Worker.pending, hpc])
      (by simp [Worker.hasAdded, hpc])
  | finished => exact h

theorem Machine.counted_step (lib : Lib) (scripts : Nat → List Attempt) (sta0 : State)
    (tid : Nat) (m : Machine) (h : m.Counted sta0) : (m.step lib scripts tid).Counted sta0 := by
  unfold Machine.step
  cases tid with
  | zero => exact Machine.counted_stepMain scripts sta0 m h
  | succ j =>
    simp only
    cases hw : m.workers[j]? with
    | none => exact h
    | some w => exact Machine.counted_stepWorker lib sta0 m j w h hw

theorem Machine.counted_run (lib : Lib) (scripts : Nat → List Attempt) (sta0 : State)
    (sched : List Nat) (m : Machine) (h : m.Counted sta0) :
    (m.run lib scripts sched).Counted sta0 := by
  induction sched generalizing m with
  | nil => exact h
  | cons tid sched ih =>
    exact ih (m.step lib scripts tid) (Machine.counted_step lib scripts sta0 tid m h)

theorem sum_map_eq_zero (f : Worker → Nat) (ws : List Worker) (h : (ws.map f).sum = 0) :
    ∀ w ∈ ws, f w = 0 := by
  induction ws with
  | nil => simp
  | cons x ws ih =>
    simp only [List.map_cons, List.sum_cons] at h
    intro w hw
    simp only [List.mem_cons] at hw
    rcases hw with rfl | hw
    · omega
    · exact ih (by omega) w hw

theorem sum_map_eq_length (f : Worker → Nat) (ws : List Worker) (h : ∀ w ∈ ws, f w = 1) :
    (ws.map f).sum = ws.length := by
  induction ws with
  | nil => simp
  | cons x ws ih =>
    simp only [List.map_cons, List.sum_cons, List.length_cons]
    rw [h x (List.mem_cons_self _ _), ih (fun w hw => h w (List.mem_cons_of_mem _ hw))]
    omega

theorem sum_map_le_length (f : Worker → Nat) (ws : List Worker) (h : ∀ w, f w ≤ 1) :
    (ws.map f).sum ≤ ws.length := by
  induction ws with
  | nil => simp
  | cons x ws ih =>
    simp only [List.map_cons, List.sum_cons, List.length_cons]
    have := h x
    omega

/-- When `makeSession` has returned every worker has ended and the pool holds one
connection per worker. -/
theorem Machine.counted_returned (sta0 : State) (m : Machine) (h : m.Counted sta0)
    (hr : m.mainPC = .returned) :
    (∀ w ∈ m.workers, w.pc = .finished) ∧ m.sesh.conns.length = m.workers.length := by
  have hwg := h.returned_wg hr
  have hsum : (m.workers.map Worker.pending).sum = 0 := by
    have := h.wg_eq
    omega
  have hfin : ∀ w ∈ m.workers, w.pc = .finished := by
    intro w hw
    have := sum_map_eq_zero _ _ hsum w hw
    cases hpc : w.pc <;> simp_all [Worker.pending]
  refine ⟨hfin, ?_⟩
  rw [h.conns_len]
  apply sum_map_eq_length
  intro w hw
  simp [Worker.hasAdded, hfin w hw]

/-! ## `makeSession`: where connections and events come from -/

theorem traceOf_append (t : Nat) (a b : List (Nat × Event)) :
    traceOf t (a ++ b) = traceOf t a ++ traceOf t b := by
  simp [traceOf]

theorem traceOf_map_same (t : Nat) (evs : List Event) :
    traceOf t (evs.map (fun e => (t, e))) = evs := by
  induction evs with
  | nil => rfl
  | cons e evs ih =>
    simp only [traceOf, List.map_cons, List.filter_cons, beq_self_eq_true, if_true] at ih ⊢
    rw [ih]

theorem traceOf_map_other (t t' : Nat) (h : t' ≠ t) (evs : List Event) :
    traceOf t (evs.map (fun e => (t', e))) = [] := by
  induction evs with
  | nil => rfl
  | cons e evs ih =>
    have hb : (t' == t) = false := by simpa using h
    simp only [traceOf, List.map_cons, List.filter_cons, hb] at ih ⊢
    simpa using ih

theorem getElem?_set_cases (ws : List Worker) (j j' : Nat) (w' x : Worker)
    (h : (ws.set j w')[j']? = some x) :
    (j' = j ∧ x = w') ∨ (j' ≠ j ∧ ws[j']? = some x) := by
  rw [List.getElem?_set] at h
  by_cases hj : j = j'
  · subst hj
    simp only [if_true] at h
    split at h
    · left; exact ⟨rfl, (Option.some.inj h).symm⟩
    · cases h
  · simp only [hj, if_false] at h
    right; exact ⟨fun e => hj e.symm, h⟩

theorem Machine.sourced_init (lib : Lib) (scripts : Nat → List Attempt) (sta : State)
    (now : Int) :
    (Machine.init lib sta now).Sourced lib scripts (Machine.init lib sta now).sta := by
  constructor
  · intro j w hw
    simp [Machine.init] at hw
  · intro j _
    simp [Machine.init, traceOf]
  · intro c hc
    simp [Machine.init, MakeSession] at hc

theorem Machine.sourced_stepMain (lib : Lib) (scripts : Nat → List Attempt) (sta0 : State)
    (m : Machine) (hc : m.Counted sta0) (h : m.Sourced lib scripts sta0) :
    (m.stepMain scripts).Sourced lib scripts sta0 := by
  unfold Machine.stepMain
  cases hpc : m.mainPC with
  | spawning i =>
    obtain ⟨hlen, _⟩ := hc.spawning i hpc
    simp only
    split
    · have htr : ∀ t, traceOf (t + 1) (m.trace ++ [(0, Event.wgAdd)]) =
          traceOf (t + 1) m.trace := by
        intro t
        rw [traceOf_append]
        simp [traceOf]
      constructor
      · intro j w hw
        simp only at hw ⊢
        by_cases hj : j < m.workers.length
        · rw [List.getElem?_append_left hj] at hw
          have hok := h.workers_ok j w hw
          exact ⟨hok.suffix, hok.conn_ok, by rw [htr]; exact hok.local_trace⟩
        · rw [List.getElem?_append_right (by omega)] at hw
          have hj0 : j - m.workers.length = 0 := by
            by_contra hne
            have : (([{ pc := WorkerPC.makeconn, script := scripts i }] : List Worker)[
              j - m.workers.length]?) = none := by
              apply List.getElem?_eq_none
              simp only [List.length_singleton]
              omega
            rw [this] at hw
            cases hw
          rw [hj0] at hw
          simp only [List.getElem?_cons_zero, Option.some.injEq] at hw
          subst hw
          have hji : j = i := by omega
          subst hji
          refine ⟨List.suffix_refl _, ?_, ?_⟩
          · intro c hcn; cases hcn
          · rw [htr, h.unspawned j (by omega)]
            rfl
      · intro j hj
        simp only [List.length_append, List.length_singleton] at hj
        simp only
        rw [htr]
        exact h.unspawned j (by omega)
      · intro c hcm
        obtain ⟨j, att, hj, hatt⟩ := h.conns_ok c hcm
        refine ⟨j, att, ?_, hatt⟩
        simp only [List.length_append, List.length_singleton]
        omega
    · exact ⟨h.workers_ok, h.unspawned, h.conns_ok⟩
  | waiting =>
    simp only
    split
    · have htr : ∀ t, traceOf (t + 1) (m.trace ++ [(0, Event.wgWait),
          (0, Event.log ("Session " ++ toString m.sesh.id ++ " established"))]) =
          traceOf (t + 1) m.trace := by
        intro t
        rw [traceOf_append]
        simp [traceOf]
      constructor
      · intro j w hw
        have hok := h.workers_ok j w hw
        exact ⟨hok.suffix, hok.conn_ok, by simp only; rw [htr]; exact hok.local_trace⟩
      · intro j hj
        simp only
        rw [htr]
        exact h.unspawned j hj
      · exact h.conns_ok
    · exact h
  | returned => exact h

theorem Machine.sourced_update (lib : Lib) (scripts : Nat → List Attempt) (sta0 : State)
    (m m' : Machine) (j : Nat) (w w' : Worker) (evs : List Event)
    (h : m.Sourced lib scripts sta0) (hw : m.workers[j]? = some w)
    (hws : m'.workers = m.workers.set j w')
    (htr : m'.trace = m.trace ++ evs.map (fun e => (j + 1, e)))
    (hconns : ∀ c ∈ m'.sesh.conns, c ∈ m.sesh.conns ∨ w.pc = .connected c)
    (hsuf : w'.script <:+ w.script)
    (hconn : ∀ c, w'.pc = .connected c →
      ∃ att ∈ w.script, (makeRemoteConn lib sta0 att).2 = .ok c)
    (hrest : evs ++ workerRest lib sta0 sta0.sessionID w' =
      workerRest lib sta0 sta0.sessionID w) :
    m'.Sourced lib scripts sta0 := by
  have hok := h.workers_ok j w hw
  have hjlt : j < m.workers.length := by
    by_contra hn
    have : m.workers[j]? = none := List.getElem?_eq_none (by omega)
    rw [this] at hw
    cases hw
  constructor
  · intro j' x hx
    rw [hws] at hx
    rcases getElem?_set_cases _ _ _ _ _ hx with ⟨rfl, rfl⟩ | ⟨hne, hx'⟩
    · refine ⟨hsuf.trans hok.suffix, ?_, ?_⟩
      · intro c hcn
        obtain ⟨att, hatt, hres⟩ := hconn c hcn
        exact ⟨att, hok.suffix.subset hatt, hres⟩
      · rw [htr, traceOf_append, traceOf_map_same, List.append_assoc, hrest]
        exact hok.local_trace
    · have hok' := h.workers_ok j' x hx'
      refine ⟨hok'.suffix, hok'.conn_ok, ?_⟩
      rw [htr, traceOf_append, traceOf_map_other _ _ (by omega), List.append_nil]
      exact hok'.local_trace
  · intro j' hj'
    rw [hws, List.length_set] at hj'
    rw [htr, traceOf_append, traceOf_map_other _ _ (by omega), List.append_nil]
    exact h.unspawned j' hj'
  · intro c hcm
    rw [hws, List.length_set]
    rcases hconns c hcm with hin | hcn
    · exact h.conns_ok c hin
    · obtain ⟨att, hatt, hres⟩ := hok.conn_ok c hcn
      exact ⟨j, att, hjlt, hatt, hres⟩

theorem Machine.sourced_stepWorker (lib : Lib) (scripts : Nat → List Attempt) (sta0 : State)
    (m : Machine) (j : Nat) (w : Worker) (hc : m.Counted sta0)
    (h : m.Sourced lib scripts sta0) (hw : m.workers[j]? = some w) :
    (m.stepWorker lib j w).Sourced lib scripts sta0 := by
  have hsta := hc.sta_eq
  have hid := hc.sesh_id
  unfold Machine.stepWorker
  cases hpc : w.pc with
  | makeconn =>
    simp only
    cases hs : w.script with
    | nil => exact h
    | cons att rest =>
      simp only
      rcases hr : makeRemoteConn lib m.sta att with ⟨tr, res⟩
      have hr0 : makeRemoteConn lib sta0 att = (tr, res) := by rw [← hsta]; exact hr
      cases res with
      | ok conn =>
        refine Machine.sourced_update lib scripts sta0 m _ j w _ tr h hw rfl rfl
          (fun c hcm => Or.inl hcm) ?_ ?_ ?_
        · rw [hs]; exact List.suffix_cons att rest
        · intro c hcn
          simp only [WorkerPC.connected.injEq] at hcn
          subst hcn
          exact ⟨att, by rw [hs]; exact List.mem_cons_self _ _, by rw [hr0]⟩
        · simp [workerRest, hpc, hs, workerBody, hr0]
      | error e =>
        refine Machine.sourced_update lib scripts sta0 m _ j w _
          (tr ++ [.log ("Failed to establish new connections to remote: " ++ e)]) h hw rfl
          (by simp) (fun c hcm => Or.inl hcm) ?_ ?_ ?_
        · rw [hs]; exact List.suffix_cons att rest
        · intro c hcn; cases hcn
        · simp [workerRest, hpc, hs, workerBody, hr0]
  | sleeping =>
    refine Machine.sourced_update lib scripts sta0 m _ j w _ [.sleep (second * 3)] h hw rfl
      rfl (fun c hcm => Or.inl hcm) (List.suffix_refl _) ?_ ?_
    · intro c hcn; cases hcn
    · simp [workerRest, hpc]
  | connected conn =>
    refine Machine.sourced_update lib scripts sta0 m _ j w _
      [.addConnection m.sesh.id conn] h hw rfl rfl ?_ (List.suffix_refl _) ?_ ?_
    · intro c hcm
      simp only [Session.AddConnection, List.mem_append, List.mem_singleton] at hcm
      rcases hcm with hcm | rfl
      · exact Or.inl hcm
      · exact Or.inr hpc
    · intro c hcn; cases hcn
    · simp [workerRest, hpc, hid]
  | added =>
    refine Machine.sourced_update lib scripts sta0 m _ j w _ [.wgDone] h hw rfl rfl
      (fun c hcm => Or.inl hcm) (List.suffix_refl _) ?_ ?_
    · intro c hcn; cases hcn
    · simp [workerRest, hpc]
  | finished => exact h

theorem Machine.sourced_run (lib : Lib) (scripts : Nat → List Attempt) (sta0 : State)
    (sched : List Nat) (m : Machine) (hc : m.Counted sta0)
    (h : m.Sourced lib scripts sta0) :
    (m.run lib scripts sched).Sourced lib scripts sta0 := by
  induction sched generalizing m with
  | nil => exact h
  | cons tid sched ih =>
    refine ih (m.step lib scripts tid) (Machine.counted_step lib scripts sta0 tid m hc) ?_
    unfold Machine.step
    cases tid with
    | zero => exact Machine.sourced_stepMain lib scripts sta0 m hc h
    | succ j =>
      simp only
      cases hw : m.workers[j]? with
      | none => exact h
      | some w => exact Machine.sourced_stepWorker lib scripts sta0 m j w hc h hw

/-! ## `makeSession`: shape of the events -/

theorem makeRemoteConn_ok_iff (lib : Lib) (sta : State) (att : Attempt) (c : Endpoint) :
    (makeRemoteConn lib sta att).2 = .ok c ↔
      (att.dial = .ok c ∧ att.hello = none ∧ att.reads 0 = none ∧ att.reads 1 = none ∧
        att.reads 2 = none ∧ att.reply = none) := by
  cases hd : att.dial with
  | error e => simp [makeRemoteConn, hd]
  | ok c0 =>
    cases hh : att.hello with
    | some e => simp [makeRemoteConn, hd, hh]
    | none =>
      cases h0 : att.reads 0 with
      | some e => simp [makeRemoteConn, discardLoop, hd, hh, h0]
      | none =>
        cases h1 : att.reads 1 with
        | some e => simp [makeRemoteConn, discardLoop, hd, hh, h0, h1]
        | none =>
          cases h2 : att.reads 2 with
          | some e => simp [makeRemoteConn, discardLoop, hd, hh, h0, h1, h2]
          | none =>
            cases hr : att.reply with
            | some e => simp [makeRemoteConn, discardLoop, hd, hh, h0, h1, h2, hr]
            | none => simp [makeRemoteConn, discardLoop, hd, hh, h0, h1, h2, hr]

theorem discardLoop_events (reads : Nat → Option Err) (c : Endpoint) (sta0 : State)
    (left k : Nat) :
    (∀ e ∈ (discardLoop reads c left k).1, e.inSession sta0) ∧
      addedConns (discardLoop reads c left k).1 = [] ∧
      sleeps (discardLoop reads c left k).1 = [] ∧
      dials (discardLoop reads c left k).1 = 0 := by
  induction left generalizing k with
  | zero => simp [discardLoop, addedConns, sleeps, dials]
  | succ left ih =>
    cases hr : reads k with
    | some e => simp [discardLoop, hr, addedConns, sleeps, dials, Event.inSession]
    | none =>
      obtain ⟨h1, h2, h3, h4⟩ := ih (k + 1)
      simp only [discardLoop, hr]
      refine ⟨?_, by simpa [addedConns] using h2, by simpa [sleeps] using h3,
        by simpa [dials] using h4⟩
      intro e he
      simp only [List.mem_cons] at he
      rcases he with rfl | he
      · simp [Event.inSession]
      · exact h1 e he

theorem addedConns_append (a b : List Event) :
    addedConns (a ++ b) = addedConns a ++ addedConns b := by
  induction a with
  | nil => rfl
  | cons x a ih => cases x <;> simp [addedConns, ih]

theorem sleeps_append (a b : List Event) : sleeps (a ++ b) = sleeps a ++ sleeps b := by
  induction a with
  | nil => rfl
  | cons x a ih => cases x <;> simp [sleeps, ih]

theorem dials_append (a b : List Event) : dials (a ++ b) = dials a + dials b := by
  induction a with
  | nil => simp [dials]
  | cons x a ih => cases x <;> simp [dials, ih]; omega

/-- The events of one call of `makeRemoteConn`: none stores a session identifier,
the ClientHello is composed from the state given, no connection is added, nothing
sleeps, and there is exactly one dial. -/
theorem makeRemoteConn_events (lib : Lib) (sta : State) (att : Attempt) :
    (∀ e ∈ (makeRemoteConn lib sta att).1, e.inSession sta) ∧
      addedConns (makeRemoteConn lib sta att).1 = [] ∧
      sleeps (makeRemoteConn lib sta att).1 = [] ∧
      dials (makeRemoteConn lib sta att).1 = 1 := by
  cases hd : att.dial with
  | error e => simp [makeRemoteConn, hd, Event.inSession, addedConns, sleeps, dials]
  | ok c =>
    cases hh : att.hello with
    | some e => simp [makeRemoteConn, hd, hh, Event.inSession, addedConns, sleeps, dials]
    | none =>
      obtain ⟨h1, h2, h3, h4⟩ := discardLoop_events att.reads c sta 3 0
      rcases hl : discardLoop att.reads c 3 0 with ⟨tr, res⟩
      rw [hl] at h1 h2 h3 h4
      simp only at h1 h2 h3 h4
      cases res with
      | some e =>
        simp only [makeRemoteConn, hd, hh, hl]
        refine ⟨?_, by simpa [addedConns] using h2, by simpa [sleeps] using h3,
          by simp [dials, h4]⟩
        intro e he
        simp only [List.mem_cons] at he
        rcases he with rfl | rfl | rfl | he
        · simp [Event.inSession]
        · simp [Event.inSession]
        · simp [Event.inSession]
        · exact h1 e he
      | none =>
        cases hr : att.reply with
        | some e =>
          simp only [makeRemoteConn, hd, hh, hl, hr]
          refine ⟨?_, by simp [addedConns, addedConns_append, h2],
            by simp [sleeps, sleeps_append, h3], by simp [dials, dials_append, h4]⟩
          intro e he
          simp only [List.mem_cons, List.mem_append, List.mem_singleton, List.mem_nil_iff,
            or_false] at he
          rcases he with rfl | rfl | rfl | he | rfl | rfl | rfl
          · simp [Event.inSession]
          · simp [Event.inSession]
          · simp [Event.inSession]
          · exact h1 e he
          · simp [Event.inSession]
          · simp [Event.inSession]
          · simp [Event.inSession]
        | none =>
          simp only [makeRemoteConn, hd, hh, hl, hr]
          refine ⟨?_, by simp [addedConns, addedConns_append, h2],
            by simp [sleeps, sleeps_append, h3], by simp [dials, dials_append, h4]⟩
          intro e he
          simp only [List.mem_cons, List.mem_append, List.mem_singleton, List.mem_nil_iff,
            or_false] at he
          rcases he with rfl | rfl | rfl | he | rfl | rfl
          · simp [Event.inSession]
          · simp [Event.inSession]
          · simp [Event.inSession]
          · exact h1 e he
          · simp [Event.inSession]
          · simp [Event.inSession]

theorem Machine.traced_update (m0 m m' : Machine) (evs : List (Nat × Event))
    (h : m.Traced m0) (htr : m'.trace = m.trace ++ evs)
    (hin : ∀ p ∈ evs, p.2.inSession m0.sta)
    (hpool : m'.sesh.conns = m.sesh.conns ++ addedConns (evs.map Prod.snd)) :
    m'.Traced m0 := by
  obtain ⟨rest, hrest, hall⟩ := h.shape
  constructor
  · refine ⟨rest ++ evs, by rw [htr, hrest, List.append_assoc], ?_⟩
    intro p hp
    rcases List.mem_append.mp hp with hp | hp
    · exact hall p hp
    · exact hin p hp
  · rw [htr, List.map_append, addedConns_append, h.pool, hpool]

theorem Machine.traced_init (lib : Lib) (sta : State) (now : Int) :
    (Machine.init lib sta now).Traced (Machine.init lib sta now) := by
  constructor
  · exact ⟨[], by simp, by simp⟩
  · simp [Machine.init, addedConns, MakeSession]

theorem Machine.traced_step (lib : Lib) (scripts : Nat → List Attempt) (m0 : Machine)
    (tid : Nat) (m : Machine) (hc : m.Counted m0.sta) (h : m.Traced m0) :
    (m.step lib scripts tid).Traced m0 := by
  unfold Machine.step
  cases tid with
  | zero =>
    simp only
    unfold Machine.stepMain
    cases hpc : m.mainPC with
    | spawning i =>
      simp only
      split
      · exact Machine.traced_update m0 m _ [(0, .wgAdd)] h rfl
          (by simp [Event.inSession]) (by simp [addedConns])
      · exact ⟨h.shape, h.pool⟩
    | waiting =>
      simp only
      split
      · exact Machine.traced_update m0 m _ _ h rfl
          (by simp [Event.inSession]) (by simp [addedConns])
      · exact h
    | returned => exact h
  | succ j =>
    simp only
    cases hw : m.workers[j]? with
    | none => exact h
    | some w =>
      simp only
      unfold Machine.stepWorker
      cases hpc : w.pc with
      | makeconn =>
        simp only
        cases hs : w.script with
        | nil => exact h
        | cons att rest =>
          simp only
          have hev := makeRemoteConn_events lib m.sta att
          rcases hr : makeRemoteConn lib m.sta att with ⟨tr, res⟩
          rw [hr, hc.sta_eq] at hev
          simp only at hev
          cases res with
          | ok conn =>
            refine Machine.traced_update m0 m _ (tr.map (fun e => (j + 1, e))) h rfl ?_ ?_
            · intro p hp
              obtain ⟨e, he, rfl⟩ := List.mem_map.mp hp
              exact hev.1 e he
            · simp [List.map_map, Function.comp_def, hev.2.1]
          | error e =>
            refine Machine.traced_update m0 m _ (tr.map (fun e => (j + 1, e)) ++
              [(j + 1, .log ("Failed to establish new connections to remote: " ++ e))]) h
              (by simp) ?_ ?_
            · intro p hp
              rcases List.mem_append.mp hp with hp | hp
              · obtain ⟨e, he, rfl⟩ := List.mem_map.mp hp
                exact hev.1 e he
              · simp only [List.mem_singleton] at hp
                subst hp
                simp [Event.inSession]
            · simp [List.map_map, Function.comp_def, hev.2.1, addedConns_append, addedConns]
      | sleeping =>
        exact Machine.traced_update m0 m _ [(j + 1, .sleep (second * 3))] h rfl
          (by simp [Event.inSession]) (by simp [addedConns])
      | connected conn =>
        exact Machine.traced_update m0 m _ [(j + 1, .addConnection m.sesh.id conn)] h rfl
          (by simp [Event.inSession, hc.sesh_id])
          (by simp [addedConns, Session.AddConnection])
      | added =>
        exact Machine.traced_update m0 m _ [(j + 1, .wgDone)] h rfl
          (by simp [Event.inSession]) (by simp [addedConns])
      | finished => exact h

theorem Machine.traced_run (lib : Lib) (scripts : Nat → List Attempt) (m0 : Machine)
    (sched : List Nat) (m : Machine) (hc : m.Counted m0.sta) (h : m.Traced m0) :
    (m.run lib scripts sched).Traced m0 := by
  induction sched generalizing m with
  | nil => exact h
  | cons tid sched ih =>
    exact ih (m.step lib scripts tid) (Machine.counted_step lib scripts m0.sta tid m hc)
      (Machine.traced_step lib scripts m0 tid m hc h)

/-! ## `makeSession`: the retry loop of a worker -/

theorem retryRound_failed (lib : Lib) (sta : State) (a : Attempt) (e : Err)
    (h : (makeRemoteConn lib sta a).2 = .error e) :
    retryRound lib sta a = (makeRemoteConn lib sta a).1 ++
      [.log ("Failed to establish new connections to remote: " ++ e),
        .sleep (second * 3)] := by
  rcases hr : makeRemoteConn lib sta a with ⟨tr, res⟩
  rw [hr] at h
  simp only at h
  subst h
  simp [retryRound, hr]

theorem workerBody_retries (lib : Lib) (sta : State) (id : Nat) (fails : List Attempt)
    (good : Attempt) (later : List Attempt) (conn : Endpoint)
    (hfail : ∀ a ∈ fails, ∃ e, (makeRemoteConn lib sta a).2 = .error e)
    (hgood : (makeRemoteConn lib sta good).2 = .ok conn) :
    workerBody lib sta id (fails ++ good :: later) =
      (fails.map (retryRound lib sta)).flatten ++ (makeRemoteConn lib sta good).1 ++
        [.addConnection id conn, .wgDone] := by
  induction fails with
  | nil =>
    rcases hr : makeRemoteConn lib sta good with ⟨tr, res⟩
    rw [hr] at hgood
    simp only at hgood
    subst hgood
    simp [workerBody, hr]
  | cons a fails ih =>
    obtain ⟨e, he⟩ := hfail a (List.mem_cons_self _ _)
    have ih' := ih (fun x hx => hfail x (List.mem_cons_of_mem _ hx))
    rw [List.cons_append, List.map_cons, List.flatten_cons, retryRound_failed lib sta a e he]
    rcases hr : makeRemoteConn lib sta a with ⟨tr, res⟩
    rw [hr] at he
    simp only at he
    subst he
    simp only [workerBody, hr, ih', List.append_assoc]

theorem retries_counts (lib : Lib) (sta : State) (fails : List Attempt)
    (hfail : ∀ a ∈ fails, ∃ e, (makeRemoteConn lib sta a).2 = .error e) :
    dials (fails.map (retryRound lib sta)).flatten = fails.length ∧
      sleeps (fails.map (retryRound lib sta)).flatten = List.replicate fails.length (second * 3) ∧
      addedConns (fails.map (retryRound lib sta)).flatten = [] := by
  induction fails with
  | nil => simp [dials, sleeps, addedConns]
  | cons a fails ih =>
    obtain ⟨e, he⟩ := hfail a (List.mem_cons_self _ _)
    obtain ⟨h1, h2, h3⟩ := ih (fun x hx => hfail x (List.mem_cons_of_mem _ hx))
    obtain ⟨_, g2, g3, g4⟩ := makeRemoteConn_events lib sta a
    rw [List.map_cons, List.flatten_cons, retryRound_failed lib sta a e he]
    refine ⟨?_, ?_, ?_⟩
    · simp only [dials_append, g4, h1, dials, List.length_cons]; omega
    · simp only [sleeps_append, g3, h2, sleeps, List.length_cons, List.replicate_succ,
        List.nil_append, List.cons_append]
    · simp only [addedConns_append, g2, h3, addedConns, List.append_nil]

/-- What a call of `makeSession` that has returned hands back. -/
theorem makeSession_some (lib : Lib) (sta : State) (now : Int) (scripts : Nat → List Attempt)
    (sched : List Nat) (s1 : Session) (sta1 : State)
    (h : (makeSession lib sta now scripts sched).2 = some (s1, sta1)) :
    sta1 = sta.SetSessionID (lib.randUint32 now % 4294967296) ∧
    s1.id = lib.randUint32 now % 4294967296 ∧
    s1.obfsKey = sta.UID ∧ s1.deobfsKey = sta.UID ∧
    addedConns ((makeSession lib sta now scripts sched).1.map Prod.snd) = s1.conns ∧
    (0 ≤ sta.NumConn → (s1.conns.length : Int) = sta.NumConn) := by
  have hc := Machine.counted_run lib scripts _ sched _ (Machine.counted_init lib sta now)
  have ht := Machine.traced_run lib scripts _ sched _ (Machine.counted_init lib sta now)
    (Machine.traced_init lib sta now)
  have hnum : (Machine.init lib sta now).sta.NumConn = sta.NumConn := rfl
  simp only [makeSession] at h ⊢
  split at h
  · rename_i hr
    simp only [Option.some.injEq, Prod.mk.injEq] at h
    obtain ⟨rfl, rfl⟩ := h
    refine ⟨hc.sta_eq, hc.sesh_id, hc.sesh_obfs, hc.sesh_deobfs, ht.pool, ?_⟩
    intro hN
    have h1 := (Machine.counted_returned _ _ hc hr).2
    have h2 := hc.past_loop (Or.inr hr)
    rw [hnum] at h2
    omega
  · cases h



/-! ## `makeSession`: it can always go on to return -/

theorem exists_of_sum_map_ne_zero (f : Worker → Nat) (ws : List Worker)
    (h : (ws.map f).sum ≠ 0) : ∃ (j : Nat) (w : Worker), ws[j]? = some w ∧ f w ≠ 0 := by
  induction ws with
  | nil => simp at h
  | cons x ws ih =>
    by_cases hx : f x = 0
    · simp only [List.map_cons, List.sum_cons, hx, Nat.zero_add] at h
      obtain ⟨j, w, hw, hf⟩ := ih h
      exact ⟨j + 1, w, by simpa using hw, hf⟩
    · exact ⟨0, x, List.getElem?_cons_zero, hx⟩

theorem untilGood_cons_ok (lib : Lib) (sta : State) (att : Attempt) (rest : List Attempt)
    (c : Endpoint) (h : (makeRemoteConn lib sta att).2 = .ok c) :
    untilGood lib sta (att :: rest) = 0 := by
  simp [untilGood, h]

theorem untilGood_cons_error (lib : Lib) (sta : State) (att : Attempt) (rest : List Attempt)
    (e : Err) (h : (makeRemoteConn lib sta att).2 = .error e) :
    untilGood lib sta (att :: rest) = untilGood lib sta rest + 1 := by
  simp [untilGood, h]

theorem hasGood_tail (lib : Lib) (sta : State) (att : Attempt) (rest : List Attempt)
    (e : Err) (h : (makeRemoteConn lib sta att).2 = .error e)
    (hg : hasGood lib sta (att :: rest)) : hasGood lib sta rest := by
  obtain ⟨a, ha, c, hc⟩ := hg
  simp only [List.mem_cons] at ha
  rcases ha with rfl | ha
  · rw [h] at hc; cases hc
  · exact ⟨a, ha, c, hc⟩

/-- A worker that has not ended and has a successful attempt left can move, and
its move brings it closer to its end while keeping a successful attempt in
reach. -/
theorem Machine.worker_progress (lib : Lib) (sta0 : State) (m : Machine) (j : Nat) (w : Worker)
    (hc : m.Counted sta0)
    (hgw : w.pc = .makeconn ∨ w.pc = .sleeping → hasGood lib sta0 w.script)
    (hp : w.pending ≠ 0) :
    ∃ w', (m.stepWorker lib j w).workers = m.workers.set j w' ∧
      (m.stepWorker lib j w).sta = m.sta ∧ (m.stepWorker lib j w).mainPC = m.mainPC ∧
      w'.cost lib sta0 < w.cost lib sta0 ∧
      (w'.pc = .makeconn ∨ w'.pc = .sleeping → hasGood lib sta0 w'.script) := by
  have hsta := hc.sta_eq
  unfold Machine.stepWorker
  cases hpc : w.pc with
  | makeconn =>
    have hg := hgw (Or.inl hpc)
    simp only
    cases hs : w.script with
    | nil =>
      obtain ⟨a, ha, _⟩ := hg
      rw [hs] at ha
      cases ha
    | cons att rest =>
      simp only
      rw [hs] at hg
      rcases hr : makeRemoteConn lib m.sta att with ⟨tr, res⟩
      have hr0 : (makeRemoteConn lib sta0 att).2 = res := by rw [← hsta, hr]
      cases res with
      | ok conn =>
        refine ⟨_, rfl, rfl, rfl, ?_, ?_⟩
        · simp only [Worker.cost, hpc]; omega
        · intro h; rcases h with h | h <;> cases h
      | error e =>
        refine ⟨_, rfl, rfl, rfl, ?_, ?_⟩
        · simp only [Worker.cost, hpc, hs, untilGood_cons_error lib sta0 att rest e hr0]
          omega
        · intro _
          exact hasGood_tail lib sta0 att rest e hr0 hg
  | sleeping =>
    have hg := hgw (Or.inr hpc)
    refine ⟨_, rfl, rfl, rfl, ?_, ?_⟩
    · simp only [Worker.cost, hpc]; omega
    · intro _; exact hg
  | connected conn =>
    refine ⟨_, rfl, rfl, rfl, ?_, ?_⟩
    · simp [Worker.cost, hpc]
    · intro h; rcases h with h | h <;> cases h
  | added =>
    refine ⟨_, rfl, rfl, rfl, ?_, ?_⟩
    · simp [Worker.cost, hpc]
    · intro h; rcases h with h | h <;> cases h
  | finished => simp [Worker.pending, hpc] at hp

theorem Machine.live_init (lib : Lib) (sta : State) (now : Int) (sel : Nat → Prop) :
    (Machine.init lib sta now).Live lib (Machine.init lib sta now).sta sel := by
  intro j w _ hw
  simp [Machine.init] at hw

theorem Machine.live_step (lib : Lib) (scripts : Nat → List Attempt) (sta0 : State)
    (sel : Nat → Prop)
    (hgood : ∀ j : Nat, sel j → (j : Int) < sta0.NumConn → hasGood lib sta0 (scripts j))
    (tid : Nat) (m : Machine) (hc : m.Counted sta0) (hl : m.Live lib sta0 sel) :
    (m.step lib scripts tid).Live lib sta0 sel := by
  unfold Machine.step
  cases tid with
  | zero =>
    simp only
    unfold Machine.stepMain
    cases hpc : m.mainPC with
    | spawning i =>
      obtain ⟨hlen, _⟩ := hc.spawning i hpc
      simp only
      split
      · rename_i hlt
        rw [hc.sta_eq] at hlt
        intro j w hsel hw hpcw
        simp only at hw
        by_cases hj : j < m.workers.length
        · rw [List.getElem?_append_left hj] at hw
          exact hl j w hsel hw hpcw
        · rw [List.getElem?_append_right (by omega)] at hw
          have hj0 : j - m.workers.length = 0 := by
            by_contra hne
            have : (([{ pc := WorkerPC.makeconn, script := scripts i }] : List Worker)[
              j - m.workers.length]?) = none := by
              apply List.getElem?_eq_none
              simp only [List.length_singleton]
              omega
            rw [this] at hw
            cases hw
          rw [hj0] at hw
          simp only [List.getElem?_cons_zero, Option.some.injEq] at hw
          subst hw
          have hji : j = i := by omega
          subst hji
          exact hgood j hsel hlt
      · exact hl
    | waiting =>
      simp only
      split
      · exact hl
      · exact hl
    | returned => exact hl
  | succ j =>
    simp only
    cases hw : m.workers[j]? with
    | none => exact hl
    | some w =>
      simp only
      by_cases hp : w.pending = 0
      · have hfin : w.pc = .finished := by
          cases hpc : w.pc <;> simp_all [Worker.pending]
        have : m.stepWorker lib j w = m := by
          simp [Machine.stepWorker, hfin]
        rw [this]
        exact hl
      · intro j' x hsel hx hpcx
        by_cases hjj : j' = j
        · subst hjj
          obtain ⟨w', hws, _, _, _, hg⟩ :=
            Machine.worker_progress lib sta0 m j' w hc (hl j' w hsel hw) hp
          rw [hws] at hx
          rcases getElem?_set_cases _ _ _ _ _ hx with ⟨_, rfl⟩ | ⟨hne, _⟩
          · exact hg hpcx
          · exact absurd rfl hne
        · have hother : (m.stepWorker lib j w).workers[j']? = m.workers[j']? := by
            unfold Machine.stepWorker
            have hset : ∀ w', (m.workers.set j w')[j']? = m.workers[j']? := by
              intro w'
              rw [List.getElem?_set]
              simp [Ne.symm hjj]
            cases w.pc with
            | makeconn =>
              simp only
              cases w.script with
              | nil => rfl
              | cons att rest =>
                simp only
                rcases makeRemoteConn lib m.sta att with ⟨tr, res⟩
                cases res <;> exact hset _
            | sleeping => exact hset _
            | connected conn => exact hset _
            | added => exact hset _
            | finished => rfl
          rw [hother] at hx
          exact hl j' x hsel hx hpcx

theorem Machine.live_run (lib : Lib) (scripts : Nat → List Attempt) (sta0 : State)
    (sel : Nat → Prop)
    (hgood : ∀ j : Nat, sel j → (j : Int) < sta0.NumConn → hasGood lib sta0 (scripts j))
    (sched : List Nat) (m : Machine) (hc : m.Counted sta0) (hl : m.Live lib sta0 sel) :
    (m.run lib scripts sched).Live lib sta0 sel := by
  induction sched generalizing m with
  | nil => exact hl
  | cons tid sched ih =>
    exact ih (m.step lib scripts tid) (Machine.counted_step lib scripts sta0 tid m hc)
      (Machine.live_step lib scripts sta0 sel hgood tid m hc hl)

/-- As long as `makeSession` has not returned, some goroutine can take a step that
brings the return closer. -/
theorem Machine.progress (lib : Lib) (scripts : Nat → List Attempt) (sta0 : State)
    (m : Machine) (hc : m.Counted sta0) (hl : m.Live lib sta0 (fun _ => True))
    (hnr : m.mainPC ≠ .returned) :
    ∃ tid, (m.step lib scripts tid).cost lib scripts < m.cost lib scripts := by
  have hsta := hc.sta_eq
  cases hpc : m.mainPC with
  | returned => exact absurd hpc hnr
  | spawning i =>
    obtain ⟨hlen, hle⟩ := hc.spawning i hpc
    refine ⟨0, ?_⟩
    by_cases hlt : (i : Int) < m.sta.NumConn
    · have hstep : m.step lib scripts 0 =
          { m with wg := m.wg + 1, mainPC := .spawning (i + 1),
                   workers := m.workers ++ [{ pc := .makeconn, script := scripts i }],
                   trace := m.trace ++ [(0, .wgAdd)] } := by
        simp [Machine.step, Machine.stepMain, hpc, hlt]
      rw [hstep]
      have hn : m.sta.NumConn.toNat - i = (m.sta.NumConn.toNat - (i + 1)) + 1 := by omega
      simp only [Machine.cost, mainCost, hpc, List.map_append, List.sum_append, List.map_cons,
        List.map_nil, List.sum_cons, List.sum_nil, Worker.cost]
      rw [hn]
      simp only [unspawnedCost]
      omega
    · have hstep : m.step lib scripts 0 = { m with mainPC := .waiting } := by
        simp [Machine.step, Machine.stepMain, hpc, hlt]
      rw [hstep]
      simp only [Machine.cost, mainCost, hpc]
      omega
  | waiting =>
    by_cases hwg : m.wg = 0
    · refine ⟨0, ?_⟩
      have hstep : m.step lib scripts 0 =
          { m with mainPC := .returned,
                   trace := m.trace ++ [(0, .wgWait),
                     (0, .log ("Session " ++ toString m.sesh.id ++ " established"))] } := by
        simp [Machine.step, Machine.stepMain, hpc, hwg]
      rw [hstep]
      simp only [Machine.cost, mainCost, hpc]
      omega
    · have hsum : (m.workers.map Worker.pending).sum ≠ 0 := by
        have := hc.wg_eq
        omega
      obtain ⟨j, w, hw, hp⟩ := exists_of_sum_map_ne_zero _ _ hsum
      refine ⟨j + 1, ?_⟩
      have hstep : m.step lib scripts (j + 1) = m.stepWorker lib j w := by
        simp [Machine.step, hw]
      rw [hstep]
      obtain ⟨w', hws, hs', hpc', hcost, _⟩ :=
        Machine.worker_progress lib sta0 m j w hc (hl j w trivial hw) hp
      have hset := sum_map_set (Worker.cost lib sta0) m.workers j w w' hw
      simp only [Machine.cost, hws, hs', hpc', hsta]
      omega

/-- From any state a call of `makeSession` can reach, some continuation of the
interleaving makes it return, provided every worker has a successful attempt. -/
theorem Machine.can_return (lib : Lib) (scripts : Nat → List Attempt) (sta0 : State)
    (hgood : ∀ j : Nat, (j : Int) < sta0.NumConn → hasGood lib sta0 (scripts j))
    (n : Nat) (m : Machine) (hn : m.cost lib scripts ≤ n) (hc : m.Counted sta0)
    (hl : m.Live lib sta0 (fun _ => True)) :
    ∃ more, (m.run lib scripts more).mainPC = .returned := by
  induction n generalizing m with
  | zero =>
    by_cases hr : m.mainPC = .returned
    · exact ⟨[], hr⟩
    · obtain ⟨tid, ht⟩ := Machine.progress lib scripts sta0 m hc hl hr
      omega
  | succ n ih =>
    by_cases hr : m.mainPC = .returned
    · exact ⟨[], hr⟩
    · obtain ⟨tid, ht⟩ := Machine.progress lib scripts sta0 m hc hl hr
      obtain ⟨more, hmore⟩ := ih (m.step lib scripts tid) (by omega)
        (Machine.counted_step lib scripts sta0 tid m hc)
        (Machine.live_step lib scripts sta0 _ (fun j _ => hgood j) tid m hc hl)
      exact ⟨tid :: more, hmore⟩

theorem Machine.run_append (lib : Lib) (scripts : Nat → List Attempt) (a b : List Nat)
    (m : Machine) : m.run lib scripts (a ++ b) = (m.run lib scripts a).run lib scripts b := by
  simp [Machine.run, List.foldl_append]

/-- Whatever the goroutines of `makeSession` have done so far, when every worker
has an attempt that succeeds the interleaving can be continued so that
`makeSession` returns. -/
theorem makeSession_can_return (lib : Lib) (sta : State) (now : Int)
    (scripts : Nat → List Attempt) (sched : List Nat)
    (hgood : ∀ j : Nat, (j : Int) < sta.NumConn →
      hasGood lib (Machine.init lib sta now).sta (scripts j)) :
    ∃ more, (makeSession lib sta now scripts (sched ++ more)).2 ≠ none := by
  have hc := Machine.counted_run lib scripts _ sched _ (Machine.counted_init lib sta now)
  have hl := Machine.live_run lib scripts _ (fun _ => True) (fun j _ => hgood j) sched _
    (Machine.counted_init lib sta now) (Machine.live_init lib sta now _)
  obtain ⟨more, hmore⟩ := Machine.can_return lib scripts _ hgood _ _ (le_refl _) hc hl
  refine ⟨more, ?_⟩
  simp only [makeSession, Machine.run_append, hmore, if_true]
  simp

/-- A started worker with a successful attempt left ends if it is scheduled often
enough. -/
theorem Machine.worker_can_finish (lib : Lib) (scripts : Nat → List Attempt) (sta0 : State)
    (j : Nat) (hgood : (j : Int) < sta0.NumConn → hasGood lib sta0 (scripts j))
    (n : Nat) (m : Machine) (w : Worker) (hc : m.Counted sta0)
    (hl : m.Live lib sta0 (fun i => i = j)) (hw : m.workers[j]? = some w)
    (hn : w.cost lib sta0 ≤ n) :
    ∃ k, ((m.run lib scripts (List.replicate k (j + 1))).workers[j]?).map Worker.pc =
      some .finished := by
  induction n generalizing m w with
  | zero =>
    refine ⟨0, ?_⟩
    have hfin : w.pc = .finished := by
      cases hpc : w.pc <;> simp [Worker.cost, hpc] at hn
      rfl
    simp [Machine.run, hw, hfin]
  | succ n ih =>
    by_cases hp : w.pending = 0
    · refine ⟨0, ?_⟩
      have hfin : w.pc = .finished := by
        cases hpc : w.pc <;> simp_all [Worker.pending]
      simp [Machine.run, hw, hfin]
    · obtain ⟨w', hws, _, _, hcost, _⟩ :=
        Machine.worker_progress lib sta0 m j w hc (hl j w rfl hw) hp
      have hstep : m.step lib scripts (j + 1) = m.stepWorker lib j w := by
        simp [Machine.step, hw]
      have hjlt : j < m.workers.length := by
        by_contra hge
        have : m.workers[j]? = none := List.getElem?_eq_none (by omega)
        rw [this] at hw
        cases hw
      have hw' : (m.step lib scripts (j + 1)).workers[j]? = some w' := by
        rw [hstep, hws, List.getElem?_set]
        simp [hjlt]
      obtain ⟨k, hk⟩ := ih (m.step lib scripts (j + 1)) w'
        (Machine.counted_step lib scripts sta0 (j + 1) m hc)
        (Machine.live_step lib scripts sta0 _ (fun i hi => by subst hi; exact hgood)
          (j + 1) m hc hl) hw' (by omega)
      exact ⟨k + 1, hk⟩

/-- A worker within `NumConn` that is not started yet gets started if the caller
of `makeSession` is scheduled often enough. -/
theorem Machine.can_spawn (lib : Lib) (scripts : Nat → List Attempt) (sta0 : State) (j : Nat)
    (hj : (j : Int) < sta0.NumConn) (n : Nat) (m : Machine) (hc : m.Counted sta0)
    (hn : j + 1 - m.workers.length ≤ n) :
    ∃ k, j < (m.run lib scripts (List.replicate k 0)).workers.length := by
  induction n generalizing m with
  | zero => exact ⟨0, by simp only [Machine.run, List.replicate, List.foldl_nil]; omega⟩
  | succ n ih =>
    by_cases hlt : j < m.workers.length
    · exact ⟨0, hlt⟩
    · have hpc : m.mainPC = .spawning m.workers.length := by
        cases hpc : m.mainPC with
        | spawning i => rw [(hc.spawning i hpc).1]
        | waiting =>
          have := hc.past_loop (Or.inl hpc)
          omega
        | returned =>
          have := hc.past_loop (Or.inr hpc)
          omega
      have hcond : ((m.workers.length : Nat) : Int) < m.sta.NumConn := by
        rw [hc.sta_eq]; omega
      have hlen : (m.step lib scripts 0).workers.length = m.workers.length + 1 := by
        simp [Machine.step, Machine.stepMain, hpc, hcond]
      obtain ⟨k, hk⟩ := ih (m.step lib scripts 0)
        (Machine.counted_step lib scripts sta0 0 m hc) (by omega)
      exact ⟨k + 1, hk⟩

/-- Whatever the goroutines of `makeSession` have done so far, a worker within
`NumConn` that has a successful attempt in its script can be brought to its end by
continuing the interleaving. -/
theorem worker_can_end (lib : Lib) (sta : State) (now : Int) (scripts : Nat → List Attempt)
    (sched : List Nat) (j : Nat) (hj : (j : Int) < sta.NumConn)
    (hgood : hasGood lib (Machine.init lib sta now).sta (scripts j)) :
    ∃ more, (((Machine.init lib sta now).run lib scripts (sched ++ more)).workers[j]?).map
      Worker.pc = some .finished := by
  have hc := Machine.counted_run lib scripts _ sched _ (Machine.counted_init lib sta now)
  have hsel : ∀ i : Nat, i = j → (i : Int) < (Machine.init lib sta now).sta.NumConn →
      hasGood lib (Machine.init lib sta now).sta (scripts i) := by
    intro i hi _
    subst hi
    exact hgood
  have hj0 : (j : Int) < (Machine.init lib sta now).sta.NumConn := hj
  obtain ⟨k1, hk1⟩ := Machine.can_spawn lib scripts (Machine.init lib sta now).sta j hj0 _
    ((Machine.init lib sta now).run lib scripts sched) hc (le_refl _)
  have hc1 := Machine.counted_run lib scripts _ (List.replicate k1 0) _ hc
  have hl1 := Machine.live_run lib scripts _ (fun i => i = j) hsel
    (sched ++ List.replicate k1 0) _ (Machine.counted_init lib sta now)
    (Machine.live_init lib sta now _)
  rw [Machine.run_append] at hl1
  cases hw : (((Machine.init lib sta now).run lib scripts sched).run lib scripts
      (List.replicate k1 0)).workers[j]? with
  | none =>
    have := List.getElem?_eq_none_iff.mp hw
    omega
  | some w =>
    obtain ⟨k2, hk2⟩ := Machine.worker_can_finish lib scripts _ j (fun _ => hgood) _ _ w hc1
      hl1 hw (le_refl _)
    refine ⟨List.replicate k1 0 ++ List.replicate k2 (j + 1), ?_⟩
    rw [Machine.run_append, Machine.run_append]
    exact hk2


/-! ## `main` -/

/-- C9: once `ParseConfig` has succeeded in non-admin mode, `main` calls
`net.Listen` exactly when the local port and the remote host are non-empty and the
timing hint is non-zero; otherwise its only further event is `log.Fatal` with the
message of the first check that fails, in the order local port (`Must specify
localPort`), remote host (`Must specify remoteHost`), timing hint (`TicketTimeHint
cannot be empty or 0`), and the process exits. -/
theorem main_config_checks (lib : Lib) (st : Startup) (sta : State) (listenErr : Option Err)
    (rounds : List AcceptRound)
    (hversion : ¬ (st.standalone = true ∧ st.askVersion = true))
    (husage : ¬ (st.standalone = true ∧ st.printUsage = true))
    (hadmin : ¬ (st.standalone = true ∧ st.adminFlag = true))
    (hparsed : st.parsed = .ok sta) :
    ((∃ e, MainEvent.listen "tcp" (listenAddr sta) e ∈ (main lib st listenErr rounds).1) ↔
      (sta.SS_LOCAL_PORT ≠ "" ∧ sta.SS_REMOTE_HOST ≠ "" ∧ sta.TicketTimeHint ≠ 0)) ∧
    (sta.SS_LOCAL_PORT = "" →
      main lib st listenErr rounds =
        ((if st.standalone then [.print "Starting standalone mode"] else []) ++
          [.fatal "Must specify localPort"], .exited)) ∧
    (sta.SS_LOCAL_PORT ≠ "" → sta.SS_REMOTE_HOST = "" →
      main lib st listenErr rounds =
        ((if st.standalone then [.print "Starting standalone mode"] else []) ++
          [.fatal "Must specify remoteHost"], .exited)) ∧
    (sta.SS_LOCAL_PORT ≠ "" → sta.SS_REMOTE_HOST ≠ "" → sta.TicketTimeHint = 0 →
      main lib st listenErr rounds =
        ((if st.standalone then [.print "Starting standalone mode"] else []) ++
          [.fatal "TicketTimeHint cannot be empty or 0"], .exited)) ∧
    (sta.SS_LOCAL_PORT ≠ "" → sta.SS_REMOTE_HOST ≠ "" → sta.TicketTimeHint ≠ 0 →
      ∃ rest, (main lib st listenErr rounds).1 =
        (if st.standalone then [.print "Starting standalone mode"] else []) ++
          .listen "tcp" (listenAddr sta) listenErr :: rest) := by
  have hmain : main lib st listenErr rounds =
      ((if st.standalone then [.print "Starting standalone mode"] else []) ++
        (mainConfigured lib sta listenErr rounds).1,
        (mainConfigured lib sta listenErr rounds).2) := by
    simp only [main, hversion, husage, hadmin, if_false, hparsed]
  have hstart : ∀ e, MainEvent.listen "tcp" (listenAddr sta) e ∉
      (if st.standalone then [MainEvent.print "Starting standalone mode"] else []) := by
    intro e
    split <;> simp
  by_cases h1 : sta.SS_LOCAL_PORT = ""
  · have hcfg : mainConfigured lib sta listenErr rounds =
        ([.fatal "Must specify localPort"], .exited) := by
      simp [mainConfigured, h1]
    rw [hmain, hcfg]
    refine ⟨?_, fun _ => rfl, fun h => absurd h1 h, fun h => absurd h1 h,
      fun h => absurd h1 h⟩
    constructor
    · rintro ⟨e, he⟩
      simp only [List.mem_append, List.mem_singleton] at he
      rcases he with he | he
      · exact absurd he (hstart e)
      · cases he
    · intro h; exact absurd h1 h.1
  · by_cases h2 : sta.SS_REMOTE_HOST = ""
    · have hcfg : mainConfigured lib sta listenErr rounds =
          ([.fatal "Must specify remoteHost"], .exited) := by
        simp [mainConfigured, h1, h2]
      rw [hmain, hcfg]
      refine ⟨?_, fun h => absurd h h1, fun _ _ => rfl, fun _ h => absurd h2 h,
        fun _ h => absurd h2 h⟩
      constructor
      · rintro ⟨e, he⟩
        simp only [List.mem_append, List.mem_singleton] at he
        rcases he with he | he
        · exact absurd he (hstart e)
        · cases he
      · intro h; exact absurd h2 h.2.1
    · by_cases h3 : sta.TicketTimeHint = 0
      · have hcfg : mainConfigured lib sta listenErr rounds =
            ([.fatal "TicketTimeHint cannot be empty or 0"], .exited) := by
          simp [mainConfigured, h1, h2, h3]
        rw [hmain, hcfg]
        refine ⟨?_, fun h => absurd h h1, fun _ h => absurd h h2, fun _ _ _ => rfl,
          fun _ _ h => absurd h3 h⟩
        constructor
        · rintro ⟨e, he⟩
          simp only [List.mem_append, List.mem_singleton] at he
          rcases he with he | he
          · exact absurd he (hstart e)
          · cases he
        · intro h; exact absurd h3 h.2.2
      · have hcfg : ∃ rest, (mainConfigured lib sta listenErr rounds).1 =
            .listen "tcp" (listenAddr sta) listenErr :: rest := by
          cases listenErr with
          | some e =>
            exact ⟨[.print ("Listening for ss on " ++ listenAddr sta), .fatal e],
              by simp [mainConfigured, h1, h2, h3]⟩
          | none =>
            exact ⟨.print ("Listening for ss on " ++ listenAddr sta) ::
              (acceptLoop lib sta none rounds).1, by simp [mainConfigured, h1, h2, h3]⟩
        obtain ⟨rest, hrest⟩ := hcfg
        rw [hmain]
        simp only [hrest]
        refine ⟨?_, fun h => absurd h h1, fun _ h => absurd h h2, fun _ _ h => absurd h h3,
          fun _ _ _ => ⟨rest, rfl⟩⟩
        constructor
        · intro _; exact ⟨h1, h2, h3⟩
        · intro _
          exact ⟨listenErr, by simp⟩

/-- Witness for C9: a configuration without local port makes `main` exit with the
message naming `localPort` and nothing else. -/
theorem main_config_checks_witness :
    ¬ (noPortStartup.standalone = true ∧ noPortStartup.askVersion = true) ∧
    ¬ (noPortStartup.standalone = true ∧ noPortStartup.printUsage = true) ∧
    ¬ (noPortStartup.standalone = true ∧ noPortStartup.adminFlag = true) ∧
    noPortStartup.parsed = .ok { exampleState with SS_LOCAL_PORT := "" } ∧
    ({ exampleState with SS_LOCAL_PORT := "" } : State).SS_LOCAL_PORT = "" ∧
    main exampleLib noPortStartup none [exampleRound] =
      ((if noPortStartup.standalone then [.print "Starting standalone mode"] else []) ++
        [.fatal "Must specify localPort"], .exited) :=
  ⟨by decide, by decide, by decide, rfl, rfl,
    (main_config_checks exampleLib noPortStartup { exampleState with SS_LOCAL_PORT := "" }
      none [exampleRound] (by decide) (by decide) (by decide) rfl).2.1 rfl⟩

/-- C7: one iteration of the accept loop of `main`, from any client state and any
value of the variable `sesh`.  A failed `Accept` is logged and leaves the session
as it is, with no call of `makeSession`.  For an accepted connection `makeSession`
is called exactly when `sesh` is nil or `sesh.IsBroken()` answers true: a session
that is there and not broken is kept as it is; otherwise the variable gets the
session a new call of `makeSession` returns, with a newly drawn identifier and
`NumConn` connections all added during that call.  The handler of the connection
is started after the test and after `makeSession`. -/
theorem accept_loop_session (lib : Lib) (sta : State) (sesh : Option Session)
    (r : AcceptRound) (rounds : List AcceptRound) :
    ((∃ tr res, MainEvent.makeSession tr res ∈ (acceptLoop lib sta sesh [r]).1) ↔
      ((∃ c, r.accept = .ok c) ∧ (sesh = none ∨ r.broken = true))) ∧
    (∀ e, r.accept = .error e →
      acceptLoop lib sta sesh (r :: rounds) =
        (.accept (.error e) :: .print e :: (acceptLoop lib sta sesh rounds).1,
          (acceptLoop lib sta sesh rounds).2)) ∧
    (∀ c s, r.accept = .ok c → sesh = some s → r.broken = false →
      acceptLoop lib sta sesh (r :: rounds) =
        (.accept (.ok c) :: .isBroken s.id false :: .goHandler c s.id ::
          (acceptLoop lib sta (some s) rounds).1, (acceptLoop lib sta (some s) rounds).2)) ∧
    (∀ c, r.accept = .ok c → (sesh = none ∨ r.broken = true) →
      (makeSession lib sta r.now r.scripts r.sched).2 = none →
      acceptLoop lib sta sesh (r :: rounds) =
        (.accept (.ok c) :: ((needSession sesh r.broken).1 ++
          [.makeSession (makeSession lib sta r.now r.scripts r.sched).1 none]),
          .inMakeSession, sta, sesh)) ∧
    (∀ c s1 sta1, r.accept = .ok c → (sesh = none ∨ r.broken = true) →
      (makeSession lib sta r.now r.scripts r.sched).2 = some (s1, sta1) →
      acceptLoop lib sta sesh (r :: rounds) =
        (.accept (.ok c) :: ((needSession sesh r.broken).1 ++
          .makeSession (makeSession lib sta r.now r.scripts r.sched).1 (some s1) ::
          .goHandler c s1.id :: (acceptLoop lib sta1 (some s1) rounds).1),
          (acceptLoop lib sta1 (some s1) rounds).2) ∧
      s1.id = lib.randUint32 r.now % 4294967296 ∧
      sta1 = sta.SetSessionID s1.id ∧
      addedConns ((makeSession lib sta r.now r.scripts r.sched).1.map Prod.snd) = s1.conns ∧
      (0 ≤ sta.NumConn → (s1.conns.length : Int) = sta.NumConn)) := by
  refine ⟨?_, ?_, ?_, ?_, ?_⟩
  · cases ha : r.accept with
    | error e => simp [acceptLoop, ha]
    | ok c =>
      cases sesh with
      | none =>
        rcases hm : makeSession lib sta r.now r.scripts r.sched with ⟨tr, res⟩
        cases res with
        | none => simp [acceptLoop, ha, needSession, hm]
        | some p => simp [acceptLoop, ha, needSession, hm]
      | some s =>
        cases hb : r.broken with
        | false => simp [acceptLoop, ha, needSession, hb]
        | true =>
          rcases hm : makeSession lib sta r.now r.scripts r.sched with ⟨tr, res⟩
          cases res with
          | none => simp [acceptLoop, ha, needSession, hb, hm]
          | some p => simp [acceptLoop, ha, needSession, hb, hm]
  · intro e ha
    simp [acceptLoop, ha]
  · intro c s ha hs hb
    subst hs
    simp [acceptLoop, ha, needSession, hb, seshId]
  · intro c ha hneed hm
    have ht : (needSession sesh r.broken).2 = true := by
      rcases hneed with rfl | hb
      · rfl
      · cases sesh <;> simp [needSession, hb]
    rcases hm' : makeSession lib sta r.now r.scripts r.sched with ⟨tr, res⟩
    rw [hm'] at hm
    simp only at hm
    subst hm
    simp [acceptLoop, ha, ht, hm']
  · intro c s1 sta1 ha hneed hm
    have ht : (needSession sesh r.broken).2 = true := by
      rcases hneed with rfl | hb
      · rfl
      · cases sesh <;> simp [needSession, hb]
    obtain ⟨g1, g2, _, _, g5, g6⟩ := makeSession_some lib sta r.now r.scripts r.sched s1 sta1 hm
    refine ⟨?_, g2, by rw [g2]; exact g1, g5, g6⟩
    rcases hm' : makeSession lib sta r.now r.scripts r.sched with ⟨tr, res⟩
    rw [hm'] at hm
    simp only at hm
    subst hm
    simp [acceptLoop, ha, ht, hm']

/-- Witness for C7: with no session yet, accepting connection 9 makes `main` call
`makeSession`, which returns a session with identifier 777 and two connections. -/
theorem accept_loop_session_witness :
    exampleRound.accept = .ok (.conn 9) ∧
    ((none : Option Session) = none ∨ exampleRound.broken = true) ∧
    (makeSession exampleLib exampleState exampleRound.now exampleRound.scripts
      exampleRound.sched).2 = some (exampleSession, exampleState.SetSessionID 777) ∧
    exampleSession.id = exampleLib.randUint32 exampleRound.now % 4294967296 ∧
    addedConns ((makeSession exampleLib exampleState exampleRound.now exampleRound.scripts
      exampleRound.sched).1.map Prod.snd) = exampleSession.conns ∧
    (0 ≤ exampleState.NumConn → (exampleSession.conns.length : Int) = exampleState.NumConn) :=
  have h := (accept_loop_session exampleLib exampleState none exampleRound []).2.2.2.2
    (.conn 9) exampleSession (exampleState.SetSessionID 777) rfl (Or.inl rfl) (by decide)
  ⟨rfl, Or.inl rfl, by decide, h.2.1, h.2.2.2.1, h.2.2.2.2⟩


/-! ## `makeSession`: the claims -/

/-- C6: a worker whose first `k` calls of `makeRemoteConn` fail and whose next call
succeeds, under any interleaving.  What it has done at any moment is an initial
part of `retryTrace`: `k` rounds made of a failed attempt, a log line and a sleep
of three seconds, then the successful attempt, `AddConnection` with the connection
obtained, `wg.Done()`; once it has ended it has done exactly that, which is
`k + 1` attempts, `k` sleeps of three seconds and one connection added, whatever
`k` is; and whatever has happened so far it can be brought to that end. -/
theorem worker_retries (lib : Lib) (sta : State) (now : Int) (scripts : Nat → List Attempt)
    (sched : List Nat) (j k : Nat) (fails : List Attempt) (good : Attempt)
    (later : List Attempt) (conn : Endpoint)
    (hscript : scripts j = fails ++ good :: later) (hk : fails.length = k)
    (hfail : ∀ a ∈ fails, ∃ e,
      (makeRemoteConn lib (Machine.init lib sta now).sta a).2 = .error e)
    (hgood : (makeRemoteConn lib (Machine.init lib sta now).sta good).2 = .ok conn) :
    (traceOf (j + 1) ((Machine.init lib sta now).run lib scripts sched).trace <+:
      retryTrace lib (Machine.init lib sta now).sta fails good conn) ∧
    ((((Machine.init lib sta now).run lib scripts sched).workers[j]?).map Worker.pc =
        some .finished →
      traceOf (j + 1) ((Machine.init lib sta now).run lib scripts sched).trace =
        retryTrace lib (Machine.init lib sta now).sta fails good conn) ∧
    (∀ a ∈ fails, ∃ e, retryRound lib (Machine.init lib sta now).sta a =
      (makeRemoteConn lib (Machine.init lib sta now).sta a).1 ++
        [.log ("Failed to establish new connections to remote: " ++ e),
          .sleep (second * 3)]) ∧
    dials (retryTrace lib (Machine.init lib sta now).sta fails good conn) = k + 1 ∧
    sleeps (retryTrace lib (Machine.init lib sta now).sta fails good conn) =
      List.replicate k (second * 3) ∧
    addedConns (retryTrace lib (Machine.init lib sta now).sta fails good conn) = [conn] ∧
    ((j : Int) < sta.NumConn →
      ∃ more, (((Machine.init lib sta now).run lib scripts (sched ++ more)).workers[j]?).map
        Worker.pc = some .finished) := by
  have hc := Machine.counted_run lib scripts _ sched _ (Machine.counted_init lib sta now)
  have hs := Machine.sourced_run lib scripts _ sched _ (Machine.counted_init lib sta now)
    (Machine.sourced_init lib scripts sta now)
  have hbody : workerBody lib (Machine.init lib sta now).sta
      (Machine.init lib sta now).sta.sessionID (scripts j) =
      retryTrace lib (Machine.init lib sta now).sta fails good conn := by
    rw [hscript, workerBody_retries lib _ _ fails good later conn hfail hgood]
    rfl
  obtain ⟨c1, c2, c3⟩ := retries_counts lib _ fails hfail
  obtain ⟨_, g2, g3, g4⟩ := makeRemoteConn_events lib (Machine.init lib sta now).sta good
  refine ⟨?_, ?_, ?_, ?_, ?_, ?_, ?_⟩
  · cases hw : ((Machine.init lib sta now).run lib scripts sched).workers[j]? with
    | none =>
      rw [hs.unspawned j (List.getElem?_eq_none_iff.mp hw)]
      exact List.nil_prefix
    | some w =>
      have hloc := (hs.workers_ok j w hw).local_trace
      rw [hbody] at hloc
      exact ⟨_, hloc⟩
  · intro hfin
    cases hw : ((Machine.init lib sta now).run lib scripts sched).workers[j]? with
    | none => rw [hw] at hfin; cases hfin
    | some w =>
      rw [hw] at hfin
      simp only [Option.map_some', Option.some.injEq] at hfin
      have hloc := (hs.workers_ok j w hw).local_trace
      simp only [workerRest, hfin, List.append_nil] at hloc
      rw [hloc, hbody]
  · intro a ha
    obtain ⟨e, he⟩ := hfail a ha
    exact ⟨e, retryRound_failed lib _ a e he⟩
  · simp only [retryTrace, dials_append, c1, g4, dials, hk]
  · simp only [retryTrace, sleeps_append, c2, g3, sleeps, hk, List.append_nil]
  · simp only [retryTrace, addedConns_append, c3, g2, addedConns, List.nil_append]
  · intro hj
    apply worker_can_end lib sta now scripts sched j hj
    exact ⟨good, by rw [hscript]; simp, conn, hgood⟩

/-- Witness for C6: the first attempt of worker 0 fails in its first `ReadTLS`, the
second succeeds on connection 2: once the worker has ended it has made two
attempts, slept once for three seconds and added one connection. -/
theorem worker_retries_witness :
    (fun _ : Nat => [badReadAttempt 1, goodAttempt 2]) 0 =
      [badReadAttempt 1] ++ goodAttempt 2 :: [] ∧
    [badReadAttempt 1].length = 1 ∧
    (∀ a ∈ [badReadAttempt 1], ∃ e,
      (makeRemoteConn exampleLib (Machine.init exampleLib exampleState 12345).sta a).2 =
        .error e) ∧
    (makeRemoteConn exampleLib (Machine.init exampleLib exampleState 12345).sta
      (goodAttempt 2)).2 = .ok (.conn 2) ∧
    (((Machine.init exampleLib exampleState 12345).run exampleLib
      (fun _ => [badReadAttempt 1, goodAttempt 2]) [0, 1, 1, 1, 1, 1]).workers[0]?).map
      Worker.pc = some .finished ∧
    traceOf 1 ((Machine.init exampleLib exampleState 12345).run exampleLib
      (fun _ => [badReadAttempt 1, goodAttempt 2]) [0, 1, 1, 1, 1, 1]).trace =
      retryTrace exampleLib (Machine.init exampleLib exampleState 12345).sta
        [badReadAttempt 1] (goodAttempt 2) (.conn 2) ∧
    dials (retryTrace exampleLib (Machine.init exampleLib exampleState 12345).sta
      [badReadAttempt 1] (goodAttempt 2) (.conn 2)) = 2 ∧
    sleeps (retryTrace exampleLib (Machine.init exampleLib exampleState 12345).sta
      [badReadAttempt 1] (goodAttempt 2) (.conn 2)) = [3000000000] ∧
    addedConns (retryTrace exampleLib (Machine.init exampleLib exampleState 12345).sta
      [badReadAttempt 1] (goodAttempt 2) (.conn 2)) = [.conn 2] := by
  have hfail : ∀ a ∈ [badReadAttempt 1], ∃ e,
      (makeRemoteConn exampleLib (Machine.init exampleLib exampleState 12345).sta a).2 =
        .error e := by
    intro a ha
    simp only [List.mem_singleton] at ha
    subst ha
    exact ⟨"EOF", by decide⟩
  have h := worker_retries exampleLib exampleState 12345
    (fun _ => [badReadAttempt 1, goodAttempt 2]) [0, 1, 1, 1, 1, 1] 0 1 [badReadAttempt 1]
    (goodAttempt 2) [] (.conn 2) rfl rfl hfail (by decide)
  exact ⟨rfl, rfl, hfail, by decide, by decide, h.2.1 (by decide), h.2.2.2.1, h.2.2.2.2.1,
    h.2.2.2.2.2.1⟩

/-! ## `makeSession`: the readiness barrier and the session identifier -/

/-- C2: when `makeSession` returns, under any interleaving of its goroutines, the
session has received exactly `NumConn` connections through `AddConnection`, each
the result of a call of `makeRemoteConn` by one of the `NumConn` workers in which
all six steps of the handshake succeeded; as long as fewer than `NumConn`
connections have been added `makeSession` has not returned; and when every worker
has an attempt that succeeds, whatever has happened so far the interleaving can be
continued so that `makeSession` returns. -/
theorem makeSession_barrier (lib : Lib) (sta : State) (now : Int)
    (scripts : Nat → List Attempt) (sched : List Nat) (hN : 0 ≤ sta.NumConn) :
    (∀ sesh sta1, (makeSession lib sta now scripts sched).2 = some (sesh, sta1) →
      (sesh.conns.length : Int) = sta.NumConn ∧
      addedConns ((makeSession lib sta now scripts sched).1.map Prod.snd) = sesh.conns ∧
      ∀ c ∈ sesh.conns, ∃ (j : Nat) (att : Attempt), (j : Int) < sta.NumConn ∧
        att ∈ scripts j ∧
        (makeRemoteConn lib sta1 att).2 = .ok c ∧
        att.dial = .ok c ∧ att.hello = none ∧ att.reads 0 = none ∧ att.reads 1 = none ∧
        att.reads 2 = none ∧ att.reply = none) ∧
    (((addedConns ((makeSession lib sta now scripts sched).1.map Prod.snd)).length : Int) <
        sta.NumConn →
      (makeSession lib sta now scripts sched).2 = none) ∧
    ((∀ j : Nat, (j : Int) < sta.NumConn →
        hasGood lib (sta.SetSessionID (lib.randUint32 now % 4294967296)) (scripts j)) →
      ∃ more, (makeSession lib sta now scripts (sched ++ more)).2 ≠ none) := by
  have hc := Machine.counted_run lib scripts _ sched _ (Machine.counted_init lib sta now)
  have hs := Machine.sourced_run lib scripts _ sched _ (Machine.counted_init lib sta now)
    (Machine.sourced_init lib scripts sta now)
  have ht := Machine.traced_run lib scripts _ sched _ (Machine.counted_init lib sta now)
    (Machine.traced_init lib sta now)
  have hnum : (Machine.init lib sta now).sta.NumConn = sta.NumConn := rfl
  have hret : ((Machine.init lib sta now).run lib scripts sched).mainPC = .returned →
      ((((Machine.init lib sta now).run lib scripts sched).sesh.conns.length : Int) =
        sta.NumConn ∧
      (((Machine.init lib sta now).run lib scripts sched).workers.length : Int) =
        sta.NumConn) := by
    intro hr
    have h1 := (Machine.counted_returned _ _ hc hr).2
    have h2 := hc.past_loop (Or.inr hr)
    rw [hnum] at h2
    omega
  refine ⟨?_, ?_, fun hgood => makeSession_can_return lib sta now scripts sched hgood⟩
  · intro sesh sta1 hres
    simp only [makeSession] at hres ⊢
    split at hres
    · rename_i hr
      simp only [Option.some.injEq, Prod.mk.injEq] at hres
      obtain ⟨rfl, rfl⟩ := hres
      refine ⟨(hret hr).1, ht.pool, ?_⟩
      intro c hcm
      obtain ⟨j, att, hj, hatt, hok⟩ := hs.conns_ok c hcm
      rw [hc.sta_eq]
      have := (hret hr).2
      exact ⟨j, att, by omega, hatt, hok, (makeRemoteConn_ok_iff lib _ att c).mp hok⟩
    · cases hres
  · intro hlt
    simp only [makeSession] at hlt ⊢
    split
    · rename_i hr
      rw [ht.pool] at hlt
      have := (hret hr).1
      omega
    · rfl

/-- C10: in a call of `makeSession`, under any interleaving and at any moment, the
identifier stored in the client state is the identifier of the session; it is
stored, and the session made, before anything else happens; afterwards no event
stores an identifier again, every ClientHello is composed from the state holding
that identifier, and every connection is added to the session with that
identifier; the obfuscator and the deobfuscator are both made from `sta.UID`. -/
theorem makeSession_session_id (lib : Lib) (sta : State) (now : Int)
    (scripts : Nat → List Attempt) (sched : List Nat) :
    ((Machine.init lib sta now).run lib scripts sched).sta =
      sta.SetSessionID (lib.randUint32 now % 4294967296) ∧
    ((Machine.init lib sta now).run lib scripts sched).sesh.id =
      lib.randUint32 now % 4294967296 ∧
    ((Machine.init lib sta now).run lib scripts sched).sesh.obfsKey = sta.UID ∧
    ((Machine.init lib sta now).run lib scripts sched).sesh.deobfsKey = sta.UID ∧
    ∃ rest, ((Machine.init lib sta now).run lib scripts sched).trace =
        [(0, .log "Attemtping to start a new session"),
         (0, .setSessionID (lib.randUint32 now % 4294967296)),
         (0, .muxMakeSession (lib.randUint32 now % 4294967296) sta.UID sta.UID)] ++ rest ∧
      ∀ p ∈ rest,
        (∀ id, p.2 ≠ .setSessionID id) ∧
        (∀ s, p.2 = .composeInitHandshake s →
          s = sta.SetSessionID (lib.randUint32 now % 4294967296) ∧
          s.sessionID = ((Machine.init lib sta now).run lib scripts sched).sesh.id) ∧
        (∀ id c, p.2 = .addConnection id c → id = lib.randUint32 now % 4294967296) := by
  have hc := Machine.counted_run lib scripts _ sched _ (Machine.counted_init lib sta now)
  have ht := Machine.traced_run lib scripts _ sched _ (Machine.counted_init lib sta now)
    (Machine.traced_init lib sta now)
  obtain ⟨rest, hrest, hall⟩ := ht.shape
  refine ⟨hc.sta_eq, hc.sesh_id, hc.sesh_obfs, hc.sesh_deobfs, rest, hrest, ?_⟩
  intro p hp
  have hin := hall p hp
  refine ⟨?_, ?_, ?_⟩
  · intro id hid
    rw [hid] at hin
    exact hin
  · intro s hs
    rw [hs] at hin
    simp only [Event.inSession] at hin
    subst hin
    exact ⟨rfl, hc.sesh_id.symm⟩
  · intro id c hid
    rw [hid] at hin
    exact hin

/-- Witness for C2: two workers that connect at once; `makeSession` returns a
session holding their two connections. -/
theorem makeSession_barrier_witness :
    0 ≤ exampleState.NumConn ∧
    (makeSession exampleLib exampleState 777 (fun j => [goodAttempt (j + 1)])
      [0, 0, 0, 1, 1, 1, 2, 2, 2, 0]).2 = some (exampleSession, exampleState.SetSessionID 777) ∧
    (exampleSession.conns.length : Int) = exampleState.NumConn ∧
    addedConns ((makeSession exampleLib exampleState 777 (fun j => [goodAttempt (j + 1)])
      [0, 0, 0, 1, 1, 1, 2, 2, 2, 0]).1.map Prod.snd) = exampleSession.conns :=
  have h := (makeSession_barrier exampleLib exampleState 777 (fun j => [goodAttempt (j + 1)])
    [0, 0, 0, 1, 1, 1, 2, 2, 2, 0] (by decide)).1 exampleSession
    (exampleState.SetSessionID 777) (by decide)
  ⟨by decide, by decide, h.1, h.2.1⟩

/-- Witness for C10: in the run where worker 0 fails once and then connects, the
state and the session hold the identifier drawn at the start. -/
theorem makeSession_session_id_witness :
    ((Machine.init exampleLib exampleState 12345).run exampleLib
      (fun _ => [badReadAttempt 1, goodAttempt 2]) [0, 1, 1, 1, 1, 1]).sta =
      exampleState.SetSessionID 12345 ∧
    ((Machine.init exampleLib exampleState 12345).run exampleLib
      (fun _ => [badReadAttempt 1, goodAttempt 2]) [0, 1, 1, 1, 1, 1]).sesh.id = 12345 :=
  have h := makeSession_session_id exampleLib exampleState 12345
    (fun _ => [badReadAttempt 1, goodAttempt 2]) [0, 1, 1, 1, 1, 1]
  ⟨h.1, h.2.1⟩

end Cloak
